import Mathlib

/-!
Shallow embedding of the `rawproc` Bayer pipeline
(`src/rawproc/src/image/bayerrgb.rs`): the in-place `crop`, the three
`whitebalance` entry points, the `debayer` demosaic engine and its helper
`pick_color`, together with the supporting types (`Image`, `Metadata`, the
CFA resolver and the `RollingRandom` byte source) that the repository keeps
outside this file and which are therefore modelled from the specification.

Rust `usize` values are embedded as `Nat`.  Rust panics (overflowing
subtraction in debug builds, out-of-bounds indexing, remainder by zero,
`unreachable!()`) are embedded as `Except` failures carrying a `Failure`
value that records the kind of panic.  The `Failure` type also carries the
two structured error kinds named by the specification (`invalidCropRect`,
`unsupportedFilterColor`) so that the specification's error-handling claims
can be stated against the code's behaviour; the embedded code itself never
produces those two values.
-/

/-- Kinds of failure an embedded operation can end in.  The first four model
Rust panics; the last two are the specification's structured error taxonomy,
never produced by the embedded source code. -/
inductive Failure where
  | unreachableCode
  | indexOOB
  | remainderZero
  | subOverflow
  | invalidCropRect
  | unsupportedFilterColor
deriving DecidableEq, Repr

/-- Rust debug-build `usize` subtraction: panics (overflow) when `b > a`. -/
def checkedSub (a b : Nat) : Except Failure Nat :=
  if b ≤ a then .ok (a - b) else .error .subOverflow

/-- Rust `%` on `usize`: panics when the divisor is zero. -/
def checkedMod (a b : Nat) : Except Failure Nat :=
  if b = 0 then .error .remainderZero else .ok (a % b)

/-- Rust `/` on `usize`: panics when the divisor is zero. -/
def checkedDiv (a b : Nat) : Except Failure Nat :=
  if b = 0 then .error .remainderZero else .ok (a / b)

/-- Rust `v[i]` read on a slice/Vec: panics when out of bounds. -/
def idxGet (l : List α) (i : Nat) : Except Failure α :=
  match l.get? i with
  | some v => .ok v
  | none => .error .indexOOB

/-- Rust `v[i] = x` write: panics when out of bounds. -/
def idxSet (l : List α) (i : Nat) (v : α) : Except Failure (List α) :=
  if i < l.length then .ok (l.set i v) else .error .indexOOB

/-- Rust `&v[s..e]` slicing: panics when `s > e` or `e > v.len()`. -/
def sliceRange (l : List α) (s e : Nat) : Except Failure (List α) :=
  if s ≤ e ∧ e ≤ l.length then .ok ((l.drop s).take (e - s)) else .error .indexOOB

/-- Rust `i as usize` applied to an `isize` value: two's-complement
reinterpretation, i.e. the value modulo `2^64`. -/
def usizeOfInt (i : Int) : Nat := (i % (2 ^ 64 : Int)).toNat

/-- The closed filter-color set of `bayerrgb.rs` (`enum CfaColor`). -/
inductive CfaColor where
  | red
  | green
  | blue
  | emerald
deriving DecidableEq, Repr

/-- Rust `impl From<usize> for CfaColor`: ordinals 0..3; anything else hits
`unreachable!()`. -/
def CfaColor.fromUsize (n : Nat) : Except Failure CfaColor :=
  match n with
  | 0 => .ok .red
  | 1 => .ok .green
  | 2 => .ok .blue
  | 3 => .ok .emerald
  | _ => .error .unreachableCode

/-- Rust `CfaColor::rgb_index`: output-channel index of a filter color;
`unreachable!()` on Emerald. -/
def CfaColor.rgb_index : CfaColor → Except Failure Nat
  | .red => .ok 0
  | .green => .ok 1
  | .blue => .ok 2
  | .emerald => .error .unreachableCode

/-- Modelled from the spec: the CFA descriptor (the `Cfa` type is not under
`src/`).  Per §3 and §4.1 it is "a small repeating tile (typically 2×2) of
filter-color assignments plus an accumulated `(dx, dy)` shift"; tile entries
are stored as the filter-color ordinals that `color_at` returns. -/
structure Cfa where
  tileWidth : Nat
  tileHeight : Nat
  tile : List Nat
  shiftX : Nat
  shiftY : Nat
deriving DecidableEq, Repr

/-- Modelled from the spec: `colorAt(x, y)` "computes
`(x + shiftX) mod tileWidth, (y + shiftY) mod tileHeight` and looks up the
tile entry" (§4.1); the tile is stored row-major.  Returns the ordinal, as
the Rust `color_at` returns a `usize` that callers convert or index with. -/
def Cfa.color_at (c : Cfa) (x y : Nat) : Nat :=
  (c.tile.get? (((y + c.shiftY) % c.tileHeight) * c.tileWidth
      + ((x + c.shiftX) % c.tileWidth))).getD 0

/-- Modelled from the spec: `shiftedBy(dx, dy)` "returns a new resolver whose
accumulated shift is increased by `(dx, dy)`" (§4.1). -/
def Cfa.shift (c : Cfa) (dx dy : Nat) : Cfa :=
  { c with shiftX := c.shiftX + dx, shiftY := c.shiftY + dy }

/-- Modelled from the spec: the `RollingRandom` byte source is not under
`src/`; per §4.5 it is a deterministic generator of bytes in `[0, 255]` with
sequential internal state.  It is modelled as an arbitrary byte stream plus a
position, so every theorem about `debayer` holds for every possible seed. -/
structure RollingRandom where
  seq : Nat → Nat
  pos : Nat

/-- Modelled from the spec: `nextByte() -> integer in [0, 255]` (§4.5),
advancing the sequential state. -/
def RollingRandom.random_u8 (r : RollingRandom) : Nat × RollingRandom :=
  (r.seq r.pos % 256, { r with pos := r.pos + 1 })

/-- The crop rectangle, in sensor-plane pixel units (§3). -/
structure CropRect where
  left : Nat
  right : Nat
  top : Nat
  bottom : Nat
deriving DecidableEq, Repr

/-- Modelled from the spec: the metadata record (§3) — optional crop
rectangle, white-balance coefficients indexed by filter-color ordinal,
per-channel white levels, CFA descriptor.  `F` is the coefficient scalar
type (`f32` in the source, kept abstract here). -/
structure Metadata (F : Type) where
  crop : Option CropRect
  whitebalance : List F
  whitelevels : List Nat
  cfa : Cfa
deriving DecidableEq, Repr

/-- Modelled from the spec: the typed image buffer (§3) — flat sample list
with width, height and metadata.  The compile-time colorspace tag of the
source (`BayerRgb` vs `LinRgb`) has no runtime content and is dropped; a
sensor-plane buffer holds `width*height` samples, the `debayer` output holds
`width*height*3` interleaved samples. -/
structure Image (T : Type) (F : Type) where
  width : Nat
  height : Nat
  metadata : Metadata F
  data : List T
deriving DecidableEq, Repr

/-- The row loop of `crop` (`bayerrgb.rs` lines 28-34): for each output row,
append the interior span `data[start..start+new_width]` to the accumulator. -/
def cropLoop (data : List T) (width left top nw : Nat) :
    List T → List Nat → Except Failure (List T)
  | acc, [] => .ok acc
  | acc, row :: rest => do
    let start := (row + top) * width + left
    let slice ← sliceRange data start (start + nw)
    cropLoop data width left top nw (acc ++ slice) rest

/-- Rust `Image::crop` (`bayerrgb.rs` lines 14-41).  Returns `self` unchanged when
the crop rectangle is absent; otherwise computes the reduced dimensions with
(panicking) `usize` subtraction, copies each interior row span, clears the
crop field and advances the CFA shift by `(left, top)`. -/
def Image.crop (img : Image T F) : Except Failure (Image T F) :=
  match img.metadata.crop with
  | none => .ok img
  | some c => do
    let nw ← checkedSub img.width (c.left + c.right)
    let nh ← checkedSub img.height (c.top + c.bottom)
    let newData ← cropLoop img.data img.width c.left c.top nw [] (List.range nh)
    let md : Metadata F :=
      { img.metadata with
        crop := none
        cfa := img.metadata.cfa.shift c.left c.top }
    .ok { width := nw, height := nh, metadata := md, data := newData }

/-- The eight 3×3 neighbor offsets of `debayer` (`bayerrgb.rs` lines 54-58),
in source order. -/
def neighborOffsets : List (Int × Int) :=
  [(-1, -1), (0, -1), (1, -1), (-1, 0), (1, 0), (-1, 1), (0, 1), (1, 1)]

/-- The neighbor description list built per pixel (`bayerrgb.rs` lines
69-73).  The Rust code maps each offset to
`(CfaColor::from(cfa.color_at(x', y')), x', y')` lazily; here the (total)
ordinal lookup is done up front and the fallible `CfaColor::from`
conversion is performed at the consumption point inside `pick_color`'s
filter pass, matching the panic behaviour of the lazy iterator. -/
def pixelOptions (cfa : Cfa) (x y : Nat) : List (Nat × Nat × Nat) :=
  neighborOffsets.map (fun o =>
    let nx := usizeOfInt ((x : Int) + o.1)
    let ny := usizeOfInt ((y : Int) + o.2)
    (cfa.color_at nx ny, nx, ny))

/-- The `options.filter(|(clr, _, _)| *clr == color).collect()` step of
`pick_color` (`bayerrgb.rs` lines 158-159), converting each ordinal with
`CfaColor::from` (which panics on ordinals above 3) as the iterator is
consumed. -/
def collectColor (options : List (Nat × Nat × Nat)) (color : CfaColor) :
    Except Failure (List (CfaColor × Nat × Nat)) :=
  match options with
  | [] => .ok []
  | (ord, px, py) :: rest => do
    let c ← CfaColor.fromUsize ord
    let tail ← collectColor rest color
    if c = color then .ok ((c, px, py) :: tail) else .ok tail

/-- Rust `pick_color` (`bayerrgb.rs` lines 153-164): filter the neighbors down to
those of the requested color, draw a byte, and index the candidate list at
`byte % (candidates.len() as u8)` — remainder by zero (a panic) when no
neighbor matches. -/
def pick_color (roll : RollingRandom) (options : List (Nat × Nat × Nat))
    (color : CfaColor) : Except Failure ((Nat × Nat) × RollingRandom) := do
  let colors ← collectColor options color
  let b := roll.random_u8
  let len8 := colors.length % 256
  if len8 = 0 then .error .remainderZero
  else do
    let t ← idxGet colors (b.1 % len8)
    .ok ((t.2.1, t.2.2), b.2)

/-- The `set` closure of `debayer` (`bayerrgb.rs` lines 61-63): write `v`
into the interleaved RGB buffer at pixel `(x, y)`, channel `clr`. -/
def setPx (rgb : List T) (w x y : Nat) (clr : CfaColor) (v : T) :
    Except Failure (List T) := do
  let k ← clr.rgb_index
  idxSet rgb ((w * y + x) * 3 + k) v

/-- The per-pixel body of `debayer`'s double loop (`bayerrgb.rs` lines
69-95): pass the native sample through and fill each non-native channel from
a randomly drawn matching neighbor, in the exact statement order of the
source's three `match` arms. -/
def debayerPixel (data : List T) (w : Nat) (cfa : Cfa)
    (st : List T × RollingRandom) (x y : Nat) :
    Except Failure (List T × RollingRandom) := do
  let options := pixelOptions cfa x y
  let center ← CfaColor.fromUsize (cfa.color_at x y)
  match center with
  | .red => do
    let v ← idxGet data (w * y + x)
    let rgb ← setPx st.1 w x y .red v
    let p ← pick_color st.2 options .green
    let v ← idxGet data (w * p.1.2 + p.1.1)
    let rgb ← setPx rgb w x y .green v
    let q ← pick_color p.2 options .blue
    let v ← idxGet data (w * q.1.2 + q.1.1)
    let rgb ← setPx rgb w x y .blue v
    .ok (rgb, q.2)
  | .blue => do
    let p ← pick_color st.2 options .red
    let v ← idxGet data (w * p.1.2 + p.1.1)
    let rgb ← setPx st.1 w x y .red v
    let v ← idxGet data (w * y + x)
    let rgb ← setPx rgb w x y .blue v
    let q ← pick_color p.2 options .green
    let v ← idxGet data (w * q.1.2 + q.1.1)
    let rgb ← setPx rgb w x y .green v
    .ok (rgb, q.2)
  | .green => do
    let p ← pick_color st.2 options .red
    let v ← idxGet data (w * p.1.2 + p.1.1)
    let rgb ← setPx st.1 w x y .red v
    let q ← pick_color p.2 options .blue
    let v ← idxGet data (w * q.1.2 + q.1.1)
    let rgb ← setPx rgb w x y .blue v
    let v ← idxGet data (w * y + x)
    let rgb ← setPx rgb w x y .green v
    .ok (rgb, q.2)
  | .emerald => .error .unreachableCode

/-- One column of `debayer`'s outer loop (`bayerrgb.rs` lines 67-68): the
inner bound `self.height - 1` is a (panicking) `usize` subtraction evaluated
inside the outer loop body. -/
def debayerCol (data : List T) (w h : Nat) (cfa : Cfa)
    (st : List T × RollingRandom) (x : Nat) :
    Except Failure (List T × RollingRandom) := do
  let hEnd ← checkedSub h 1
  List.foldlM (fun s y => debayerPixel data w cfa s x y) st (List.range' 1 (hEnd - 1))

/-- Rust `Image::debayer` (`bayerrgb.rs` lines 47-106): allocate the interleaved
RGB buffer filled with the first sensor sample, walk the interior pixels in
`x`-major order updating it, and return the RGB image carrying the same
metadata.  `rr0` is the fresh `RollingRandom` the source constructs; its
(unspecified) seed is a parameter here, so the theorems below hold for every
seed. -/
def Image.debayer (rr0 : RollingRandom) (img : Image T F) :
    Except Failure (Image T F) := do
  let sent ← idxGet img.data 0
  let rgb0 := List.replicate (img.width * img.height * 3) sent
  let wEnd ← checkedSub img.width 1
  let res ← List.foldlM (debayerCol img.data img.width img.height img.metadata.cfa)
      (rgb0, rr0) (List.range' 1 (wEnd - 1))
  .ok { width := img.width, height := img.height, metadata := img.metadata,
        data := res.1 }

/-- The `f32` arithmetic of the white-balance entry points, kept abstract:
the claims about white balance are data-flow claims (which coefficient is
selected and which cast is applied), so they are proved for every
interpretation of the float operations.  `mul` is `f32` multiplication,
`ofU16`/`ofU8` are the `as f32` casts, and `toU16`/`toU8` are the
truncating-toward-zero saturating `as u16` / `as u8` casts. -/
structure FloatModel where
  F : Type
  mul : F → F → F
  ofU16 : Nat → F
  toU16 : F → Nat
  ofU8 : Nat → F
  toU8 : F → Nat

/-- Loop body of `whitebalance` for `Image<f32>` (`bayerrgb.rs` lines
110-120): match on the converted filter color and scale by the
correspondingly indexed coefficient; `unreachable!()` on Emerald. -/
def wbLoopF32 (M : FloatModel) (w : Nat) (cfa : Cfa) (wb : List M.F) :
    Nat → List M.F → Except Failure (List M.F)
  | _, [] => .ok []
  | i, v :: rest => do
    let xm ← checkedMod i w
    let ym ← checkedDiv i w
    let c ← CfaColor.fromUsize (cfa.color_at xm ym)
    let k ← (match c with
      | .red => .ok 0
      | .green => .ok 1
      | .blue => .ok 2
      | .emerald => .error .unreachableCode : Except Failure Nat)
    let co ← idxGet wb k
    let tail ← wbLoopF32 M w cfa wb (i + 1) rest
    .ok (M.mul v co :: tail)

/-- Rust `whitebalance` for `Image<f32, BayerRgb>` (`bayerrgb.rs` lines 109-121):
in-place scaling of every sample; metadata untouched. -/
def Image.whitebalanceF32 (M : FloatModel) (img : Image M.F M.F) :
    Except Failure (Image M.F M.F) := do
  let d ← wbLoopF32 M img.width img.metadata.cfa img.metadata.whitebalance 0 img.data
  .ok { img with data := d }

/-- Loop body of `whitebalance` for `Image<u16>` (`bayerrgb.rs` lines
126-135): unlike the `f32` and `u8` versions, the coefficient array is
indexed directly with the raw ordinal returned by `color_at`. -/
def wbLoopU16 (M : FloatModel) (w : Nat) (cfa : Cfa) (wb : List M.F) :
    Nat → List Nat → Except Failure (List Nat)
  | _, [] => .ok []
  | i, v :: rest => do
    let xm ← checkedMod i w
    let ym ← checkedDiv i w
    let co ← idxGet wb (cfa.color_at xm ym)
    let tail ← wbLoopU16 M w cfa wb (i + 1) rest
    .ok (M.toU16 (M.mul (M.ofU16 v) co) :: tail)

/-- Rust `whitebalance` for `Image<u16, BayerRgb>` (`bayerrgb.rs` lines
123-137). -/
def Image.whitebalanceU16 (M : FloatModel) (img : Image Nat M.F) :
    Except Failure (Image Nat M.F) := do
  let d ← wbLoopU16 M img.width img.metadata.cfa img.metadata.whitebalance 0 img.data
  .ok { img with data := d }

/-- Loop body of `whitebalance` for `Image<u8>` (`bayerrgb.rs` lines
142-149): same match-based coefficient selection as the `f32` version, with
`u8` casts. -/
def wbLoopU8 (M : FloatModel) (w : Nat) (cfa : Cfa) (wb : List M.F) :
    Nat → List Nat → Except Failure (List Nat)
  | _, [] => .ok []
  | i, v :: rest => do
    let xm ← checkedMod i w
    let ym ← checkedDiv i w
    let c ← CfaColor.fromUsize (cfa.color_at xm ym)
    let k ← (match c with
      | .red => .ok 0
      | .green => .ok 1
      | .blue => .ok 2
      | .emerald => .error .unreachableCode : Except Failure Nat)
    let co ← idxGet wb k
    let tail ← wbLoopU8 M w cfa wb (i + 1) rest
    .ok (M.toU8 (M.mul (M.ofU8 v) co) :: tail)

/-- Rust `whitebalance` for `Image<u8, BayerRgb>` (`bayerrgb.rs` lines
139-151). -/
def Image.whitebalanceU8 (M : FloatModel) (img : Image Nat M.F) :
    Except Failure (Image Nat M.F) := do
  let d ← wbLoopU8 M img.width img.metadata.cfa img.metadata.whitebalance 0 img.data
  .ok { img with data := d }

/-- The interior pixels visited by `debayer`'s double loop, in the source's
`x`-major order: `x` ranges over `1..width-1`, `y` over `1..height-1`. -/
def pixelSeq (w h : Nat) : List (Nat × Nat) :=
  (List.range' 1 (w - 1 - 1)).flatMap (fun x => (List.range' 1 (h - 1 - 1)).map (fun y => (x, y)))

/-! ### Concrete instances used to evaluate the theorems -/

/-- A concrete all-zeros byte stream for the `RollingRandom` parameter. -/
def rrZ : RollingRandom := { seq := fun _ => 0, pos := 0 }

/-- The RGGB 2×2 tile of §8 (Red at even-even, Green at even-odd/odd-even,
Blue at odd-odd), unshifted. -/
def rggb : Cfa := { tileWidth := 2, tileHeight := 2, tile := [0, 1, 1, 2], shiftX := 0, shiftY := 0 }

/-- Baseline metadata: no crop, unit coefficients, RGGB tile. -/
def md0 : Metadata Nat :=
  { crop := none, whitebalance := [1, 1, 1], whitelevels := [255], cfa := rggb }

/-- A 3×3 RGGB sensor buffer with distinct samples. -/
def ex3 : Image Nat Nat :=
  { width := 3, height := 3, metadata := md0,
    data := [10, 20, 30, 40, 50, 60, 70, 80, 90] }

/-- The demosaic output of `ex3` under the all-zeros byte stream. -/
def ex3Out : Image Nat Nat :=
  { width := 3, height := 3, metadata := md0,
    data := [10, 10, 10, 10, 10, 10, 10, 10, 10, 10, 10, 10, 10, 20, 50,
             10, 10, 10, 10, 10, 10, 10, 10, 10, 10, 10, 10] }

/-- A 4×3 buffer with a valid crop rectangle `{left 1, right 1, top 1, bottom 0}`. -/
def exCrop : Image Nat Nat :=
  { width := 4, height := 3,
    metadata := { md0 with crop := some { left := 1, right := 1, top := 1, bottom := 0 } },
    data := [1, 2, 3, 4, 5, 6, 7, 8, 9, 10, 11, 12] }

/-- A 2×1 buffer whose crop rectangle violates the precondition at the
boundary: `left + right = width`. -/
def exBad : Image Nat Nat :=
  { width := 2, height := 1,
    metadata := { md0 with crop := some { left := 1, right := 1, top := 0, bottom := 0 } },
    data := [5, 7] }

/-- A 3×3 buffer whose CFA tile reports Emerald everywhere. -/
def exEm : Image Nat Nat :=
  { width := 3, height := 3,
    metadata := { md0 with
                  cfa := { tileWidth := 1, tileHeight := 1, tile := [3], shiftX := 0, shiftY := 0 } },
    data := [10, 20, 30, 40, 50, 60, 70, 80, 90] }

/-- A 3×3 buffer whose CFA tile reports Red everywhere, so no interior pixel
has a Green (or Blue) neighbor. -/
def exAllRed : Image Nat Nat :=
  { width := 3, height := 3,
    metadata := { md0 with
                  cfa := { tileWidth := 1, tileHeight := 1, tile := [0], shiftX := 0, shiftY := 0 } },
    data := [10, 20, 30, 40, 50, 60, 70, 80, 90] }

/-- A concrete interpretation of the abstract `f32` operations over `Nat`,
used to evaluate the white-balance theorems. -/
def MNat : FloatModel :=
  { F := Nat, mul := Nat.mul, ofU16 := id, toU16 := id, ofU8 := id, toU8 := id }

/-- A 2×2 RGGB buffer with coefficients `[2, 3, 5]`. -/
def exWb : Image Nat Nat :=
  { width := 2, height := 2, metadata := { md0 with whitebalance := [2, 3, 5] },
    data := [10, 10, 10, 10] }

/-- A 2×2 buffer whose tile has an Emerald entry (RGGE), coefficients
`[2, 3, 5]`. -/
def exWbEm : Image Nat Nat :=
  { width := 2, height := 2,
    metadata := { md0 with
                  whitebalance := [2, 3, 5]
                  cfa := { tileWidth := 2, tileHeight := 2, tile := [0, 1, 1, 3], shiftX := 0, shiftY := 0 } },
    data := [10, 10, 10, 10] }

/-- The value `exBad.crop` actually produces: a zero-width buffer with the
crop field cleared. -/
def exBadOut : Image Nat Nat :=
  { width := 0, height := 1,
    metadata := { crop := none, whitebalance := [1, 1, 1], whitelevels := [255],
                  cfa := { tileWidth := 2, tileHeight := 2, tile := [0, 1, 1, 2],
                           shiftX := 1, shiftY := 0 } },
    data := [] }

/-- The result of `exCrop.crop`. -/
def exCropOut : Image Nat Nat :=
  { width := 2, height := 2,
    metadata := { crop := none, whitebalance := [1, 1, 1], whitelevels := [255],
                  cfa := { tileWidth := 2, tileHeight := 2, tile := [0, 1, 1, 2],
                           shiftX := 1, shiftY := 1 } },
    data := [6, 7, 10, 11] }

/-! ### Helper lemmas -/

theorem except_bind_ok {α β : Type} {a : Except Failure α} {f : α → Except Failure β}
    {b : β} (h : a.bind f = .ok b) : ∃ x, a = .ok x ∧ f x = .ok b := by
  cases a with
  | ok x => exact ⟨x, rfl, h⟩
  | error e => exact absurd h (by simp [Except.bind])

theorem checkedSub_ok {a b : Nat} (h : b ≤ a) : checkedSub a b = .ok (a - b) := by
  simp [checkedSub, h]

theorem idxGet_ok {l : List α} {i : Nat} {v : α} :
    idxGet l i = .ok v ↔ l.get? i = some v := by
  unfold idxGet
  cases h : l.get? i <;> simp

/-- The loop `cropLoop` succeeds and produces the row-major concatenation of the row
spans whenever every requested span stays inside the buffer. -/
theorem cropLoop_ok {T : Type} (data : List T) (w l t nw : Nat) :
    ∀ (rows : List Nat) (acc : List T),
      (∀ row ∈ rows, (row + t) * w + l + nw ≤ data.length) →
      cropLoop data w l t nw acc rows =
        .ok (acc ++ rows.flatMap (fun row => (data.drop ((row + t) * w + l)).take nw)) := by
  intro rows
  induction rows with
  | nil => intro acc _; simp [cropLoop]
  | cons hd tl ih =>
    intro acc hbound
    have hhd : (hd + t) * w + l + nw ≤ data.length := hbound hd (by simp)
    have hslice : sliceRange data ((hd + t) * w + l) ((hd + t) * w + l + nw) =
        .ok ((data.drop ((hd + t) * w + l)).take nw) := by
      simp [sliceRange, Nat.le_add_right, hhd]
    rw [cropLoop]
    rw [hslice]
    show cropLoop data w l t nw _ tl = _
    rw [ih _ (fun row hr => hbound row (by simp [hr]))]
    simp [List.flatMap_cons, List.append_assoc]

/-- Length of a flatMap whose blocks all have length `nw`. -/
theorem flatMap_length_uniform {T : Type} {f : Nat → List T} {nw : Nat} :
    ∀ (rows : List Nat), (∀ row ∈ rows, (f row).length = nw) →
      (rows.flatMap f).length = rows.length * nw := by
  intro rows
  induction rows with
  | nil => simp
  | cons hd tl ih =>
    intro h
    simp only [List.flatMap_cons, List.length_append, List.length_cons]
    rw [h hd (by simp), ih (fun r hr => h r (by simp [hr]))]
    ring

/-- Indexing into a flatMap whose blocks all have length `nw`. -/
theorem flatMap_get_uniform {T : Type} {f : Nat → List T} {nw : Nat} :
    ∀ (rows : List Nat) (i c : Nat), c < nw →
      (∀ row ∈ rows, (f row).length = nw) →
      ∀ row, rows.get? i = some row →
      (rows.flatMap f).get? (i * nw + c) = (f row).get? c := by
  intro rows
  induction rows with
  | nil => intro i c _ _ row h; simp at h
  | cons hd tl ih =>
    intro i c hc hlen row hrow
    cases i with
    | zero =>
      simp only [List.get?_cons_zero, Option.some.injEq] at hrow
      subst hrow
      have hl : (f hd).length = nw := hlen hd (by simp)
      simp only [List.flatMap_cons, Nat.zero_mul, Nat.zero_add]
      rw [List.get?_append (by omega)]
    | succ j =>
      simp only [List.get?_cons_succ] at hrow
      have hl : (f hd).length = nw := hlen hd (by simp)
      have harith : (j + 1) * nw + c = (f hd).length + (j * nw + c) := by
        rw [hl]; ring
      simp only [List.flatMap_cons, harith, List.get?_append_right (Nat.le_add_right _ _),
        Nat.add_sub_cancel_left]
      exact ih j c hc (fun r hr => hlen r (by simp [hr])) row hrow

/-- Unfolding of `Image.crop` when a crop rectangle is present. -/
theorem crop_eq_of_some {T F : Type} {img : Image T F} {c : CropRect}
    (hc : img.metadata.crop = some c) :
    img.crop = (checkedSub img.width (c.left + c.right)).bind (fun nw =>
      (checkedSub img.height (c.top + c.bottom)).bind (fun nh =>
        (cropLoop img.data img.width c.left c.top nw [] (List.range nh)).bind (fun nd =>
          .ok { width := nw, height := nh, metadata := { img.metadata with crop := none, cfa := img.metadata.cfa.shift c.left c.top }, data := nd }))) := by
  unfold Image.crop
  rw [hc]
  rfl

theorem except_error_bind {α β : Type} {e : Failure} {f : α → Except Failure β} :
    (Except.error e : Except Failure α).bind f = .error e := rfl

theorem except_ok_bind {α β : Type} {x : α} {f : α → Except Failure β} :
    (Except.ok x : Except Failure α).bind f = f x := rfl

/-- C6: crop is a no-op when the crop rectangle is absent, and because a
successful crop clears the crop field, every crop after a successful one is a
no-op. -/
theorem crop_noop_absent_and_idempotent {T F : Type} (img : Image T F) :
    (img.metadata.crop = none → img.crop = .ok img) ∧
    (∀ out : Image T F, img.crop = .ok out → out.crop = .ok out) := by
  have habs : ∀ j : Image T F, j.metadata.crop = none → j.crop = .ok j := by
    intro j hj
    unfold Image.crop
    rw [hj]
  refine ⟨habs img, ?_⟩
  intro out hout
  cases hc : img.metadata.crop with
  | none =>
    rw [habs img hc] at hout
    simp only [Except.ok.injEq] at hout
    subst hout
    exact habs img hc
  | some c =>
    rw [crop_eq_of_some hc] at hout
    obtain ⟨nw, h1, hout⟩ := except_bind_ok hout
    obtain ⟨nh, h2, hout⟩ := except_bind_ok hout
    obtain ⟨nd, h3, hout⟩ := except_bind_ok hout
    simp only [Except.ok.injEq] at hout
    apply habs
    rw [← hout]

theorem crop_noop_absent_and_idempotent_witness :
    exCrop.crop = Except.ok exCropOut ∧ exCropOut.crop = Except.ok exCropOut :=
  ⟨by rfl, (crop_noop_absent_and_idempotent exCrop).2 exCropOut (by rfl)⟩

/-- C1 counterexample: `exBad` has the violating crop rectangle
`left = right = 1` on a width-2 buffer (`left + right < width` fails), yet
`crop` does not fail with `InvalidCropRect` — it succeeds and replaces the
buffer with a zero-width one. -/
theorem crop_invalid_rect_counterexample :
    exBad.metadata.crop = some { left := 1, right := 1, top := 0, bottom := 0 } ∧
    ¬ (1 + 1 < exBad.width ∧ 0 + 0 < exBad.height) ∧
    exBad.crop = Except.ok exBadOut ∧
    exBadOut ≠ exBad ∧
    exBad.crop ≠ Except.error Failure.invalidCropRect := by
  refine ⟨by decide, by decide, by rfl, by decide, ?_⟩
  rw [show exBad.crop = Except.ok exBadOut from rfl]
  exact fun hh => Except.noConfusion hh

theorem checkedSub_err {a b : Nat} (h : ¬ b ≤ a) : checkedSub a b = .error .subOverflow := by
  simp [checkedSub, h]

/-- All row spans requested by `cropLoop` stay inside a `w*h` buffer when the
span fits a row (`l + nw ≤ w`) and the rows fit the height (`t + nh ≤ h`). -/
theorem cropBound {w h l t nw nh : Nat} (hlnw : l + nw ≤ w) (hnh : t + nh ≤ h) :
    ∀ row ∈ List.range nh, (row + t) * w + l + nw ≤ w * h := by
  intro row hrow
  rw [List.mem_range] at hrow
  calc (row + t) * w + l + nw ≤ (row + t) * w + w := by omega
    _ = (row + t + 1) * w := by ring
    _ ≤ h * w := Nat.mul_le_mul_right _ (by omega)
    _ = w * h := Nat.mul_comm h w

/-- C1 amended: on a crop rectangle violating the precondition, `crop` never
fails with `InvalidCropRect`; it either panics on the underflowing `usize`
subtraction (strict violation, producing no buffer at all) or succeeds with a
buffer of zero width or zero height (boundary violation), clearing the crop
field — in no case does it fail cleanly with the buffer unchanged. -/
theorem crop_violation_amended {T F : Type} (img : Image T F) (c : CropRect)
    (hc : img.metadata.crop = some c)
    (hviol : img.width ≤ c.left + c.right ∨ img.height ≤ c.top + c.bottom)
    (hlen : img.data.length = img.width * img.height) :
    (img.crop = .error .subOverflow ∨
      (∃ out : Image T F, img.crop = .ok out ∧ (out.width = 0 ∨ out.height = 0) ∧
        out.metadata.crop = none)) ∧
    img.crop ≠ .error .invalidCropRect := by
  rw [crop_eq_of_some hc]
  by_cases h1 : c.left + c.right ≤ img.width
  · rw [checkedSub_ok h1, except_ok_bind]
    by_cases h2 : c.top + c.bottom ≤ img.height
    · rw [checkedSub_ok h2, except_ok_bind]
      have hcase : img.width - (c.left + c.right) = 0 ∨
          img.height - (c.top + c.bottom) = 0 := by omega
      have hbound : ∀ row ∈ List.range (img.height - (c.top + c.bottom)),
          (row + c.top) * img.width + c.left + (img.width - (c.left + c.right))
            ≤ img.data.length := by
        intro row hrow
        rw [hlen]
        refine cropBound (by omega) (by omega) row hrow
      rw [cropLoop_ok img.data img.width c.left c.top _ _ [] hbound, except_ok_bind]
      constructor
      · right
        exact ⟨_, rfl, hcase, rfl⟩
      · exact fun hh => Except.noConfusion hh
    · rw [checkedSub_err h2, except_error_bind]
      exact ⟨Or.inl rfl, fun hh => Failure.noConfusion (Except.error.inj hh)⟩
  · rw [checkedSub_err h1, except_error_bind]
    exact ⟨Or.inl rfl, fun hh => Failure.noConfusion (Except.error.inj hh)⟩

theorem crop_violation_amended_witness :
    exBad.metadata.crop = some { left := 1, right := 1, top := 0, bottom := 0 } ∧
    (exBad.width ≤ 1 + 1 ∨ exBad.height ≤ 0 + 0) ∧
    exBad.data.length = exBad.width * exBad.height ∧
    ((exBad.crop = .error .subOverflow ∨
      (∃ out : Image Nat Nat, exBad.crop = .ok out ∧ (out.width = 0 ∨ out.height = 0) ∧
        out.metadata.crop = none)) ∧
    exBad.crop ≠ .error .invalidCropRect) :=
  ⟨by decide, by decide, by decide,
    crop_violation_amended exBad { left := 1, right := 1, top := 0, bottom := 0 }
      (by decide) (by decide) (by decide)⟩

/-- C5: with a present crop rectangle satisfying the precondition, `crop`
succeeds; the dimensions are reduced by the rectangle, the crop field is
cleared, the CFA resolver is shifted by `(left, top)`, the coefficients are
untouched, and the samples are exactly the row-major concatenation of the
interior span of each interior row. -/
theorem crop_success_spec {T F : Type} (img : Image T F) (c : CropRect)
    (hc : img.metadata.crop = some c)
    (hw : c.left + c.right < img.width)
    (hh : c.top + c.bottom < img.height)
    (hlen : img.data.length = img.width * img.height) :
    ∃ out : Image T F, img.crop = .ok out ∧
      out.width = img.width - (c.left + c.right) ∧
      out.height = img.height - (c.top + c.bottom) ∧
      out.metadata.crop = none ∧
      out.metadata.cfa = img.metadata.cfa.shift c.left c.top ∧
      out.metadata.whitebalance = img.metadata.whitebalance ∧
      out.data.length = out.width * out.height ∧
      ∀ r cc : Nat, r < out.height → cc < out.width →
        out.data.get? (r * out.width + cc) =
          img.data.get? ((r + c.top) * img.width + (c.left + cc)) := by
  have hbound : ∀ row ∈ List.range (img.height - (c.top + c.bottom)),
      (row + c.top) * img.width + c.left + (img.width - (c.left + c.right))
        ≤ img.data.length := by
    intro row hrow
    rw [hlen]
    exact cropBound (by omega) (by omega) row hrow
  have hblock : ∀ row ∈ List.range (img.height - (c.top + c.bottom)),
      ((img.data.drop ((row + c.top) * img.width + c.left)).take
        (img.width - (c.left + c.right))).length = img.width - (c.left + c.right) := by
    intro row hrow
    have := hbound row hrow
    simp only [List.length_take, List.length_drop]
    omega
  have hcrop : img.crop = .ok
      { width := img.width - (c.left + c.right),
        height := img.height - (c.top + c.bottom),
        metadata := { img.metadata with crop := none, cfa := img.metadata.cfa.shift c.left c.top },
        data := (List.range (img.height - (c.top + c.bottom))).flatMap
          (fun row => (img.data.drop ((row + c.top) * img.width + c.left)).take
            (img.width - (c.left + c.right))) } := by
    rw [crop_eq_of_some hc, checkedSub_ok (Nat.le_of_lt hw), except_ok_bind,
      checkedSub_ok (Nat.le_of_lt hh), except_ok_bind,
      cropLoop_ok img.data img.width c.left c.top _ _ [] hbound, except_ok_bind]
    rw [List.nil_append]
  refine ⟨_, hcrop, rfl, rfl, rfl, rfl, rfl, ?_, ?_⟩
  · show ((List.range _).flatMap _).length = _
    rw [flatMap_length_uniform _ hblock, List.length_range]
    exact Nat.mul_comm _ _
  · intro r cc hr hcc
    show ((List.range _).flatMap _).get? _ = _
    rw [flatMap_get_uniform (List.range _) r cc hcc hblock r
      (by rw [List.get?_range]; exact hr)]
    rw [List.get?_take hcc, List.get?_drop]
    rw [Nat.add_assoc]

theorem crop_success_spec_witness :
    exCrop.metadata.crop = some { left := 1, right := 1, top := 1, bottom := 0 } ∧
    1 + 1 < exCrop.width ∧ 1 + 0 < exCrop.height ∧
    exCrop.data.length = exCrop.width * exCrop.height ∧
    (∃ out : Image Nat Nat, exCrop.crop = .ok out ∧
      out.width = exCrop.width - (1 + 1) ∧
      out.height = exCrop.height - (1 + 0) ∧
      out.metadata.crop = none ∧
      out.metadata.cfa = exCrop.metadata.cfa.shift 1 1 ∧
      out.metadata.whitebalance = exCrop.metadata.whitebalance ∧
      out.data.length = out.width * out.height ∧
      ∀ r cc : Nat, r < out.height → cc < out.width →
        out.data.get? (r * out.width + cc) =
          exCrop.data.get? ((r + 1) * exCrop.width + (1 + cc))) :=
  ⟨by decide, by decide, by decide, by decide,
    crop_success_spec exCrop { left := 1, right := 1, top := 1, bottom := 0 }
      (by decide) (by decide) (by decide) (by decide)⟩

theorem idxGet_lt {α : Type} {l : List α} {i : Nat} (h : i < l.length) :
    ∃ v, idxGet l i = .ok v ∧ l.get? i = some v := by
  cases hg : l.get? i with
  | some v => exact ⟨v, by simp only [idxGet, hg], rfl⟩
  | none => exact absurd (List.get?_eq_none.mp hg) (by omega)

theorem idxGet_none {α : Type} {l : List α} {i : Nat} (h : l.length ≤ i) :
    idxGet l i = .error .indexOOB := by
  rw [idxGet, List.get?_eq_none.mpr h]

theorem ok_bind {α β : Type} (x : α) (f : α → Except Failure β) :
    (Except.ok x : Except Failure α) >>= f = f x := rfl

theorem error_bind {α β : Type} (e : Failure) (f : α → Except Failure β) :
    (Except.error e : Except Failure α) >>= f = .error e := rfl

theorem checkedMod_ok {a b : Nat} (h : b ≠ 0) : checkedMod a b = .ok (a % b) := by
  simp [checkedMod, h]

theorem checkedDiv_ok {a b : Nat} (h : b ≠ 0) : checkedDiv a b = .ok (a / b) := by
  simp [checkedDiv, h]

/-- Characterization of the `f32` white-balance loop on buffers whose filter
colors are all in {Red, Green, Blue}. -/
theorem wbLoopF32_ok (M : FloatModel) (w : Nat) (cfa : Cfa) (wb : List M.F)
    (hw : w ≠ 0) (hwb : wb.length = 3) :
    ∀ (l : List M.F) (i0 : Nat),
      (∀ j, j < l.length → cfa.color_at ((i0 + j) % w) ((i0 + j) / w) ≤ 2) →
      ∃ out, wbLoopF32 M w cfa wb i0 l = .ok out ∧ out.length = l.length ∧
        ∀ j v co, l.get? j = some v →
          wb.get? (cfa.color_at ((i0 + j) % w) ((i0 + j) / w)) = some co →
          out.get? j = some (M.mul v co) := by
  intro l
  induction l with
  | nil =>
    intro i0 _
    exact ⟨[], rfl, rfl, by intro j v co hj _; simp at hj⟩
  | cons v rest ih =>
    intro i0 hord
    have hord0 : cfa.color_at (i0 % w) (i0 / w) ≤ 2 := by
      have := hord 0 (by simp)
      simpa using this
    obtain ⟨tail, htail, hlen, hget⟩ := ih (i0 + 1) (by
      intro j hj
      have := hord (j + 1) (by simp; omega)
      have harith : i0 + (j + 1) = i0 + 1 + j := by omega
      rwa [harith] at this)
    have hco : ∃ co, idxGet wb (cfa.color_at (i0 % w) (i0 / w)) = .ok co ∧
        wb.get? (cfa.color_at (i0 % w) (i0 / w)) = some co :=
      idxGet_lt (by omega)
    obtain ⟨co, hcoget, hcosome⟩ := hco
    have hstep : wbLoopF32 M w cfa wb i0 (v :: rest) = .ok (M.mul v co :: tail) := by
      have hcase : cfa.color_at (i0 % w) (i0 / w) = 0 ∨ cfa.color_at (i0 % w) (i0 / w) = 1 ∨
          cfa.color_at (i0 % w) (i0 / w) = 2 := by omega
      rcases hcase with h | h | h <;>
        rw [h] at hcoget <;>
        rw [wbLoopF32, checkedMod_ok hw, ok_bind, checkedDiv_ok hw, ok_bind, h] <;>
        simp only [CfaColor.fromUsize, ok_bind, hcoget, htail]
    refine ⟨M.mul v co :: tail, hstep, by simp [hlen], ?_⟩
    intro j vv cco hj hcoj
    cases j with
    | zero =>
      simp only [List.get?_cons_zero, Option.some.injEq] at hj
      rw [Nat.add_zero] at hcoj
      rw [hcosome] at hcoj
      simp only [Option.some.injEq] at hcoj
      simp [← hj, ← hcoj]
    | succ n =>
      simp only [List.get?_cons_succ] at hj ⊢
      have harith : i0 + (n + 1) = i0 + 1 + n := by omega
      rw [harith] at hcoj
      exact hget n vv cco hj hcoj

/-- Characterization of the `u16` white-balance loop (raw-ordinal indexing)
on buffers whose filter colors are all in {Red, Green, Blue}. -/
theorem wbLoopU16_ok (M : FloatModel) (w : Nat) (cfa : Cfa) (wb : List M.F)
    (hw : w ≠ 0) (hwb : wb.length = 3) :
    ∀ (l : List Nat) (i0 : Nat),
      (∀ j, j < l.length → cfa.color_at ((i0 + j) % w) ((i0 + j) / w) ≤ 2) →
      ∃ out, wbLoopU16 M w cfa wb i0 l = .ok out ∧ out.length = l.length ∧
        ∀ j v co, l.get? j = some v →
          wb.get? (cfa.color_at ((i0 + j) % w) ((i0 + j) / w)) = some co →
          out.get? j = some (M.toU16 (M.mul (M.ofU16 v) co)) := by
  intro l
  induction l with
  | nil =>
    intro i0 _
    exact ⟨[], rfl, rfl, by intro j v co hj _; simp at hj⟩
  | cons v rest ih =>
    intro i0 hord
    have hord0 : cfa.color_at (i0 % w) (i0 / w) ≤ 2 := by
      have := hord 0 (by simp)
      simpa using this
    obtain ⟨tail, htail, hlen, hget⟩ := ih (i0 + 1) (by
      intro j hj
      have := hord (j + 1) (by simp; omega)
      have harith : i0 + (j + 1) = i0 + 1 + j := by omega
      rwa [harith] at this)
    obtain ⟨co, hcoget, hcosome⟩ :=
      idxGet_lt (l := wb) (i := cfa.color_at (i0 % w) (i0 / w)) (by omega)
    have hstep : wbLoopU16 M w cfa wb i0 (v :: rest) =
        .ok (M.toU16 (M.mul (M.ofU16 v) co) :: tail) := by
      rw [wbLoopU16, checkedMod_ok hw, ok_bind, checkedDiv_ok hw, ok_bind]
      simp only [hcoget, ok_bind, htail]
    refine ⟨_, hstep, by simp [hlen], ?_⟩
    intro j vv cco hj hcoj
    cases j with
    | zero =>
      simp only [List.get?_cons_zero, Option.some.injEq] at hj
      rw [Nat.add_zero] at hcoj
      rw [hcosome] at hcoj
      simp only [Option.some.injEq] at hcoj
      simp [← hj, ← hcoj]
    | succ n =>
      simp only [List.get?_cons_succ] at hj ⊢
      have harith : i0 + (n + 1) = i0 + 1 + n := by omega
      rw [harith] at hcoj
      exact hget n vv cco hj hcoj

/-- Characterization of the `u8` white-balance loop on buffers whose filter
colors are all in {Red, Green, Blue}. -/
theorem wbLoopU8_ok (M : FloatModel) (w : Nat) (cfa : Cfa) (wb : List M.F)
    (hw : w ≠ 0) (hwb : wb.length = 3) :
    ∀ (l : List Nat) (i0 : Nat),
      (∀ j, j < l.length → cfa.color_at ((i0 + j) % w) ((i0 + j) / w) ≤ 2) →
      ∃ out, wbLoopU8 M w cfa wb i0 l = .ok out ∧ out.length = l.length ∧
        ∀ j v co, l.get? j = some v →
          wb.get? (cfa.color_at ((i0 + j) % w) ((i0 + j) / w)) = some co →
          out.get? j = some (M.toU8 (M.mul (M.ofU8 v) co)) := by
  intro l
  induction l with
  | nil =>
    intro i0 _
    exact ⟨[], rfl, rfl, by intro j v co hj _; simp at hj⟩
  | cons v rest ih =>
    intro i0 hord
    have hord0 : cfa.color_at (i0 % w) (i0 / w) ≤ 2 := by
      have := hord 0 (by simp)
      simpa using this
    obtain ⟨tail, htail, hlen, hget⟩ := ih (i0 + 1) (by
      intro j hj
      have := hord (j + 1) (by simp; omega)
      have harith : i0 + (j + 1) = i0 + 1 + j := by omega
      rwa [harith] at this)
    obtain ⟨co, hcoget, hcosome⟩ :=
      idxGet_lt (l := wb) (i := cfa.color_at (i0 % w) (i0 / w)) (by omega)
    have hstep : wbLoopU8 M w cfa wb i0 (v :: rest) =
        .ok (M.toU8 (M.mul (M.ofU8 v) co) :: tail) := by
      have hcase : cfa.color_at (i0 % w) (i0 / w) = 0 ∨ cfa.color_at (i0 % w) (i0 / w) = 1 ∨
          cfa.color_at (i0 % w) (i0 / w) = 2 := by omega
      rcases hcase with h | h | h <;>
        rw [h] at hcoget <;>
        rw [wbLoopU8, checkedMod_ok hw, ok_bind, checkedDiv_ok hw, ok_bind, h] <;>
        simp only [CfaColor.fromUsize, ok_bind, hcoget, htail]
    refine ⟨_, hstep, by simp [hlen], ?_⟩
    intro j vv cco hj hcoj
    cases j with
    | zero =>
      simp only [List.get?_cons_zero, Option.some.injEq] at hj
      rw [Nat.add_zero] at hcoj
      rw [hcosome] at hcoj
      simp only [Option.some.injEq] at hcoj
      simp [← hj, ← hcoj]
    | succ n =>
      simp only [List.get?_cons_succ] at hj ⊢
      have harith : i0 + (n + 1) = i0 + 1 + n := by omega
      rw [harith] at hcoj
      exact hget n vv cco hj hcoj

/-- C8: for every sample at index `i` (pixel `(i % width, i / width)`), each
white-balance entry point replaces the sample by the sample multiplied (in
`f32`) by the coefficient selected by the pixel's filter color — exactly for
`f32` buffers, and converted back through the truncating `as u16` / `as u8`
cast for the integer buffers; metadata (the coefficients included) is
untouched.  Stated for every interpretation `M` of the `f32` operations,
over buffers whose filter colors are all in {Red, Green, Blue}. -/
theorem whitebalance_exactness (M : FloatModel) :
    (∀ img : Image M.F M.F, img.width ≠ 0 → img.metadata.whitebalance.length = 3 →
      (∀ j, j < img.data.length →
        img.metadata.cfa.color_at (j % img.width) (j / img.width) ≤ 2) →
      ∃ out, img.whitebalanceF32 M = .ok out ∧ out.metadata = img.metadata ∧
        out.width = img.width ∧ out.height = img.height ∧
        out.data.length = img.data.length ∧
        ∀ j v co, img.data.get? j = some v →
          img.metadata.whitebalance.get?
            (img.metadata.cfa.color_at (j % img.width) (j / img.width)) = some co →
          out.data.get? j = some (M.mul v co)) ∧
    (∀ img : Image Nat M.F, img.width ≠ 0 → img.metadata.whitebalance.length = 3 →
      (∀ j, j < img.data.length →
        img.metadata.cfa.color_at (j % img.width) (j / img.width) ≤ 2) →
      ∃ out, img.whitebalanceU16 M = .ok out ∧ out.metadata = img.metadata ∧
        out.width = img.width ∧ out.height = img.height ∧
        out.data.length = img.data.length ∧
        ∀ j v co, img.data.get? j = some v →
          img.metadata.whitebalance.get?
            (img.metadata.cfa.color_at (j % img.width) (j / img.width)) = some co →
          out.data.get? j = some (M.toU16 (M.mul (M.ofU16 v) co))) ∧
    (∀ img : Image Nat M.F, img.width ≠ 0 → img.metadata.whitebalance.length = 3 →
      (∀ j, j < img.data.length →
        img.metadata.cfa.color_at (j % img.width) (j / img.width) ≤ 2) →
      ∃ out, img.whitebalanceU8 M = .ok out ∧ out.metadata = img.metadata ∧
        out.width = img.width ∧ out.height = img.height ∧
        out.data.length = img.data.length ∧
        ∀ j v co, img.data.get? j = some v →
          img.metadata.whitebalance.get?
            (img.metadata.cfa.color_at (j % img.width) (j / img.width)) = some co →
          out.data.get? j = some (M.toU8 (M.mul (M.ofU8 v) co))) := by
  refine ⟨?_, ?_, ?_⟩
  · intro img hw hwb hord
    obtain ⟨out, hloop, hlen, hget⟩ :=
      wbLoopF32_ok M img.width img.metadata.cfa img.metadata.whitebalance hw hwb
        img.data 0 (by intro j hj; simpa using hord j hj)
    refine ⟨{ img with data := out }, ?_, rfl, rfl, rfl, hlen, ?_⟩
    · rw [Image.whitebalanceF32, hloop, ok_bind]
    · intro j v co hj hco
      exact hget j v co hj (by simpa using hco)
  · intro img hw hwb hord
    obtain ⟨out, hloop, hlen, hget⟩ :=
      wbLoopU16_ok M img.width img.metadata.cfa img.metadata.whitebalance hw hwb
        img.data 0 (by intro j hj; simpa using hord j hj)
    refine ⟨{ img with data := out }, ?_, rfl, rfl, rfl, hlen, ?_⟩
    · rw [Image.whitebalanceU16, hloop, ok_bind]
    · intro j v co hj hco
      exact hget j v co hj (by simpa using hco)
  · intro img hw hwb hord
    obtain ⟨out, hloop, hlen, hget⟩ :=
      wbLoopU8_ok M img.width img.metadata.cfa img.metadata.whitebalance hw hwb
        img.data 0 (by intro j hj; simpa using hord j hj)
    refine ⟨{ img with data := out }, ?_, rfl, rfl, rfl, hlen, ?_⟩
    · rw [Image.whitebalanceU8, hloop, ok_bind]
    · intro j v co hj hco
      exact hget j v co hj (by simpa using hco)

theorem whitebalance_exactness_witness :
    exWb.width ≠ 0 ∧ exWb.metadata.whitebalance.length = 3 ∧
    (∀ j, j < exWb.data.length →
      exWb.metadata.cfa.color_at (j % exWb.width) (j / exWb.width) ≤ 2) ∧
    (∃ out, Image.whitebalanceF32 MNat exWb = .ok out ∧ out.metadata = exWb.metadata ∧
      out.width = exWb.width ∧ out.height = exWb.height ∧
      out.data.length = exWb.data.length ∧
      ∀ j v co, exWb.data.get? j = some v →
        exWb.metadata.whitebalance.get?
          (exWb.metadata.cfa.color_at (j % exWb.width) (j / exWb.width)) = some co →
        out.data.get? j = some (MNat.mul v co)) ∧
    (∃ out, Image.whitebalanceU16 MNat exWb = .ok out ∧ out.metadata = exWb.metadata ∧
      out.width = exWb.width ∧ out.height = exWb.height ∧
      out.data.length = exWb.data.length ∧
      ∀ j v co, exWb.data.get? j = some v →
        exWb.metadata.whitebalance.get?
          (exWb.metadata.cfa.color_at (j % exWb.width) (j / exWb.width)) = some co →
        out.data.get? j = some (MNat.toU16 (MNat.mul (MNat.ofU16 v) co))) ∧
    (∃ out, Image.whitebalanceU8 MNat exWb = .ok out ∧ out.metadata = exWb.metadata ∧
      out.width = exWb.width ∧ out.height = exWb.height ∧
      out.data.length = exWb.data.length ∧
      ∀ j v co, exWb.data.get? j = some v →
        exWb.metadata.whitebalance.get?
          (exWb.metadata.cfa.color_at (j % exWb.width) (j / exWb.width)) = some co →
        out.data.get? j = some (MNat.toU8 (MNat.mul (MNat.ofU8 v) co))) :=
  ⟨by decide, by decide, by decide,
    (whitebalance_exactness MNat).1 exWb (by decide) (by decide) (by decide),
    (whitebalance_exactness MNat).2.1 exWb (by decide) (by decide) (by decide),
    (whitebalance_exactness MNat).2.2 exWb (by decide) (by decide) (by decide)⟩

/-- The `u16` white-balance loop hits an out-of-bounds coefficient read
(`wb[3]` on a 3-entry table) at the first Emerald pixel. -/
theorem wbLoopU16_emerald (M : FloatModel) (w : Nat) (cfa : Cfa) (wb : List M.F)
    (hw : w ≠ 0) (hwb : wb.length = 3) :
    ∀ (l : List Nat) (i0 : Nat),
      (∀ j, j < l.length → cfa.color_at ((i0 + j) % w) ((i0 + j) / w) ≤ 3) →
      (∃ j, j < l.length ∧ cfa.color_at ((i0 + j) % w) ((i0 + j) / w) = 3) →
      wbLoopU16 M w cfa wb i0 l = .error .indexOOB := by
  intro l
  induction l with
  | nil =>
    intro i0 _ hex
    obtain ⟨j, hj, _⟩ := hex
    simp at hj
  | cons v rest ih =>
    intro i0 hord hex
    rw [wbLoopU16, checkedMod_ok hw, ok_bind, checkedDiv_ok hw, ok_bind]
    by_cases h0 : cfa.color_at (i0 % w) (i0 / w) = 3
    · rw [h0, idxGet_none (by omega), error_bind]
    · obtain ⟨co, hcoget, _⟩ :=
        idxGet_lt (l := wb) (i := cfa.color_at (i0 % w) (i0 / w)) (by
          have := hord 0 (by simp)
          simp only [Nat.add_zero] at this
          omega)
      rw [hcoget, ok_bind]
      obtain ⟨j, hj, hem⟩ := hex
      cases j with
      | zero => exact absurd (by simpa using hem) h0
      | succ n =>
        rw [ih (i0 + 1)
          (by
            intro j hj2
            have := hord (j + 1) (by simp; omega)
            have harith : i0 + (j + 1) = i0 + 1 + j := by omega
            rwa [harith] at this)
          (by
            refine ⟨n, by simpa using hj, ?_⟩
            have harith : i0 + 1 + n = i0 + (n + 1) := by omega
            rwa [harith]), error_bind]

/-- The `u8` white-balance loop hits the `unreachable!()` arm at the first
Emerald pixel. -/
theorem wbLoopU8_emerald (M : FloatModel) (w : Nat) (cfa : Cfa) (wb : List M.F)
    (hw : w ≠ 0) (hwb : wb.length = 3) :
    ∀ (l : List Nat) (i0 : Nat),
      (∀ j, j < l.length → cfa.color_at ((i0 + j) % w) ((i0 + j) / w) ≤ 3) →
      (∃ j, j < l.length ∧ cfa.color_at ((i0 + j) % w) ((i0 + j) / w) = 3) →
      wbLoopU8 M w cfa wb i0 l = .error .unreachableCode := by
  intro l
  induction l with
  | nil =>
    intro i0 _ hex
    obtain ⟨j, hj, _⟩ := hex
    simp at hj
  | cons v rest ih =>
    intro i0 hord hex
    rw [wbLoopU8, checkedMod_ok hw, ok_bind, checkedDiv_ok hw, ok_bind]
    by_cases h0 : cfa.color_at (i0 % w) (i0 / w) = 3
    · rw [h0]
      simp only [CfaColor.fromUsize, ok_bind, error_bind]
    · have hle : cfa.color_at (i0 % w) (i0 / w) ≤ 2 := by
        have := hord 0 (by simp)
        simp only [Nat.add_zero] at this
        omega
      obtain ⟨co, hcoget, _⟩ :=
        idxGet_lt (l := wb) (i := cfa.color_at (i0 % w) (i0 / w)) (by omega)
      obtain ⟨j, hj, hem⟩ := hex
      have hrest : wbLoopU8 M w cfa wb (i0 + 1) rest = .error .unreachableCode := by
        cases j with
        | zero => exact absurd (by simpa using hem) h0
        | succ n =>
          refine ih (i0 + 1)
            (by
              intro j2 hj2
              have := hord (j2 + 1) (by simp; omega)
              have harith : i0 + (j2 + 1) = i0 + 1 + j2 := by omega
              rwa [harith] at this)
            ⟨n, by simpa using hj, by
              have harith : i0 + 1 + n = i0 + (n + 1) := by omega
              rwa [harith]⟩
      have hcase : cfa.color_at (i0 % w) (i0 / w) = 0 ∨ cfa.color_at (i0 % w) (i0 / w) = 1 ∨
          cfa.color_at (i0 % w) (i0 / w) = 2 := by omega
      rcases hcase with h | h | h <;>
        rw [h] at hcoget <;>
        rw [h] <;>
        simp only [CfaColor.fromUsize, ok_bind, hcoget, hrest, error_bind]

/-- The `f32` white-balance loop hits the `unreachable!()` arm at the first
Emerald pixel. -/
theorem wbLoopF32_emerald (M : FloatModel) (w : Nat) (cfa : Cfa) (wb : List M.F)
    (hw : w ≠ 0) (hwb : wb.length = 3) :
    ∀ (l : List M.F) (i0 : Nat),
      (∀ j, j < l.length → cfa.color_at ((i0 + j) % w) ((i0 + j) / w) ≤ 3) →
      (∃ j, j < l.length ∧ cfa.color_at ((i0 + j) % w) ((i0 + j) / w) = 3) →
      wbLoopF32 M w cfa wb i0 l = .error .unreachableCode := by
  intro l
  induction l with
  | nil =>
    intro i0 _ hex
    obtain ⟨j, hj, _⟩ := hex
    simp at hj
  | cons v rest ih =>
    intro i0 hord hex
    rw [wbLoopF32, checkedMod_ok hw, ok_bind, checkedDiv_ok hw, ok_bind]
    by_cases h0 : cfa.color_at (i0 % w) (i0 / w) = 3
    · rw [h0]
      simp only [CfaColor.fromUsize, ok_bind, error_bind]
    · have hle : cfa.color_at (i0 % w) (i0 / w) ≤ 2 := by
        have := hord 0 (by simp)
        simp only [Nat.add_zero] at this
        omega
      obtain ⟨co, hcoget, _⟩ :=
        idxGet_lt (l := wb) (i := cfa.color_at (i0 % w) (i0 / w)) (by omega)
      obtain ⟨j, hj, hem⟩ := hex
      have hrest : wbLoopF32 M w cfa wb (i0 + 1) rest = .error .unreachableCode := by
        cases j with
        | zero => exact absurd (by simpa using hem) h0
        | succ n =>
          refine ih (i0 + 1)
            (by
              intro j2 hj2
              have := hord (j2 + 1) (by simp; omega)
              have harith : i0 + (j2 + 1) = i0 + 1 + j2 := by omega
              rwa [harith] at this)
            ⟨n, by simpa using hj, by
              have harith : i0 + 1 + n = i0 + (n + 1) := by omega
              rwa [harith]⟩
      have hcase : cfa.color_at (i0 % w) (i0 / w) = 0 ∨ cfa.color_at (i0 % w) (i0 / w) = 1 ∨
          cfa.color_at (i0 % w) (i0 / w) = 2 := by omega
      rcases hcase with h | h | h <;>
        rw [h] at hcoget <;>
        rw [h] <;>
        simp only [CfaColor.fromUsize, ok_bind, hcoget, hrest, error_bind]

/-- C10: the `u16` white-balance entry point indexes the coefficient table
directly with the raw ordinal returned by `color_at`; on a buffer containing
an Emerald pixel (ordinal 3) it therefore panics with an out-of-bounds read
of the three-entry table (`coefficients[3]`), whereas the `u8` and `f32`
entry points, which match on the converted filter color, panic on their
explicit `unreachable!()` Emerald arm instead. -/
theorem whitebalance_u16_raw_ordinal_oob (M : FloatModel) :
    (∀ (img : Image Nat M.F) (i : Nat), img.width ≠ 0 →
      img.metadata.whitebalance.length = 3 →
      (∀ j, j < img.data.length →
        img.metadata.cfa.color_at (j % img.width) (j / img.width) ≤ 3) →
      i < img.data.length →
      img.metadata.cfa.color_at (i % img.width) (i / img.width) = 3 →
      img.whitebalanceU16 M = .error .indexOOB) ∧
    (∀ (img : Image Nat M.F) (i : Nat), img.width ≠ 0 →
      img.metadata.whitebalance.length = 3 →
      (∀ j, j < img.data.length →
        img.metadata.cfa.color_at (j % img.width) (j / img.width) ≤ 3) →
      i < img.data.length →
      img.metadata.cfa.color_at (i % img.width) (i / img.width) = 3 →
      img.whitebalanceU8 M = .error .unreachableCode) ∧
    (∀ (img : Image M.F M.F) (i : Nat), img.width ≠ 0 →
      img.metadata.whitebalance.length = 3 →
      (∀ j, j < img.data.length →
        img.metadata.cfa.color_at (j % img.width) (j / img.width) ≤ 3) →
      i < img.data.length →
      img.metadata.cfa.color_at (i % img.width) (i / img.width) = 3 →
      img.whitebalanceF32 M = .error .unreachableCode) := by
  refine ⟨?_, ?_, ?_⟩
  · intro img i hw hwb hord hi hem
    rw [Image.whitebalanceU16,
      wbLoopU16_emerald M img.width img.metadata.cfa img.metadata.whitebalance hw hwb
        img.data 0 (by intro j hj; simpa using hord j hj) ⟨i, hi, by simpa using hem⟩,
      error_bind]
  · intro img i hw hwb hord hi hem
    rw [Image.whitebalanceU8,
      wbLoopU8_emerald M img.width img.metadata.cfa img.metadata.whitebalance hw hwb
        img.data 0 (by intro j hj; simpa using hord j hj) ⟨i, hi, by simpa using hem⟩,
      error_bind]
  · intro img i hw hwb hord hi hem
    rw [Image.whitebalanceF32,
      wbLoopF32_emerald M img.width img.metadata.cfa img.metadata.whitebalance hw hwb
        img.data 0 (by intro j hj; simpa using hord j hj) ⟨i, hi, by simpa using hem⟩,
      error_bind]

theorem whitebalance_u16_raw_ordinal_oob_witness :
    exWbEm.width ≠ 0 ∧ exWbEm.metadata.whitebalance.length = 3 ∧
    (∀ j, j < exWbEm.data.length →
      exWbEm.metadata.cfa.color_at (j % exWbEm.width) (j / exWbEm.width) ≤ 3) ∧
    3 < exWbEm.data.length ∧
    exWbEm.metadata.cfa.color_at (3 % exWbEm.width) (3 / exWbEm.width) = 3 ∧
    Image.whitebalanceU16 MNat exWbEm = .error .indexOOB ∧
    Image.whitebalanceU8 MNat exWbEm = .error .unreachableCode ∧
    Image.whitebalanceF32 MNat exWbEm = .error .unreachableCode :=
  ⟨by decide, by decide, by decide, by decide, by decide,
    (whitebalance_u16_raw_ordinal_oob MNat).1 exWbEm 3 (by decide) (by decide) (by decide)
      (by decide) (by decide),
    (whitebalance_u16_raw_ordinal_oob MNat).2.1 exWbEm 3 (by decide) (by decide) (by decide)
      (by decide) (by decide),
    (whitebalance_u16_raw_ordinal_oob MNat).2.2 exWbEm 3 (by decide) (by decide) (by decide)
      (by decide) (by decide)⟩

theorem bindM_ok {α β : Type} {a : Except Failure α} {f : α → Except Failure β} {b : β}
    (h : a >>= f = .ok b) : ∃ x, a = .ok x ∧ f x = .ok b := by
  cases a with
  | ok x => exact ⟨x, rfl, h⟩
  | error e => rw [error_bind] at h; exact absurd h (by simp)

theorem checkedSub_ok_inv {a b n : Nat} (h : checkedSub a b = .ok n) :
    b ≤ a ∧ n = a - b := by
  rw [checkedSub] at h
  by_cases hba : b ≤ a
  · rw [if_pos hba] at h
    simp only [Except.ok.injEq] at h
    exact ⟨hba, h.symm⟩
  · rw [if_neg hba] at h
    exact absurd h (by simp)

/-- Any state preserved by every step of a fold is preserved by the fold. -/
theorem foldlM_preserve {σ π : Type} (step : σ → π → Except Failure σ) (Φ : σ → Prop) :
    ∀ (ps : List π) (st st' : σ),
      (∀ q ∈ ps, ∀ s1 s2, step s1 q = .ok s2 → Φ s1 → Φ s2) →
      List.foldlM step st ps = .ok st' → Φ st → Φ st' := by
  intro ps
  induction ps with
  | nil =>
    intro st st' _ hfold hst
    simp only [List.foldlM_nil, Except.pure, pure, Except.ok.injEq] at hfold
    rwa [← hfold]
  | cons q rest ih =>
    intro st st' hpres hfold hst
    rw [List.foldlM_cons] at hfold
    obtain ⟨s1, hq, hrest⟩ := bindM_ok hfold
    exact ih s1 st' (fun r hr => hpres r (by simp [hr]))
      hrest (hpres q (by simp) st s1 hq hst)

/-- If a state property is established by the step at `p` and preserved by
every other step, it holds after any successful fold whose list contains
`p`. -/
theorem foldlM_establish {σ π : Type} (step : σ → π → Except Failure σ) (Φ : σ → Prop)
    (p : π) :
    ∀ (ps : List π) (st st' : σ),
      (∀ s1 s2, step s1 p = .ok s2 → Φ s2) →
      (∀ q ∈ ps, q ≠ p → ∀ s1 s2, step s1 q = .ok s2 → Φ s1 → Φ s2) →
      p ∈ ps → List.foldlM step st ps = .ok st' → Φ st' := by
  intro ps
  induction ps with
  | nil => simp
  | cons q rest ih =>
    intro st st' hest hpres hmem hfold
    rw [List.foldlM_cons] at hfold
    obtain ⟨s1, hq, hrest⟩ := bindM_ok hfold
    by_cases hp : p ∈ rest
    · exact ih s1 st' hest (fun r hr => hpres r (by simp [hr])) hp hrest
    · have hqp : q = p := by
        rcases List.mem_cons.mp hmem with h | h
        · exact h.symm
        · exact absurd h hp
      subst hqp
      exact foldlM_preserve step Φ rest s1 st'
        (fun r hr => hpres r (by simp [hr]) (fun hf => hp (hf ▸ hr)))
        hrest (hest st s1 hq)

/-- If some list element makes the step fail for every state, the fold
fails. -/
theorem foldlM_error {σ π : Type} (step : σ → π → Except Failure σ) (p : π) :
    ∀ (ps : List π) (st : σ),
      (∀ s1, ∃ e, step s1 p = .error e) →
      p ∈ ps → ∃ e, List.foldlM step st ps = .error e := by
  intro ps
  induction ps with
  | nil => simp
  | cons q rest ih =>
    intro st herr hmem
    rw [List.foldlM_cons]
    cases hq : step st q with
    | error e => exact ⟨e, by rw [error_bind]⟩
    | ok s1 =>
      rw [ok_bind]
      have hp : p ∈ rest := by
        rcases List.mem_cons.mp hmem with h | h
        · subst h
          obtain ⟨e, he⟩ := herr st
          rw [he] at hq
          exact absurd hq (by simp)
        · exact h
      exact ih s1 herr hp

/-- A fold whose step decomposes per-element into an inner fold equals the
flat fold over the concatenation. -/
theorem foldlM_flatMap {σ π ρ : Type} (f : σ → π → Except Failure σ) (g : ρ → List π)
    (bigStep : σ → ρ → Except Failure σ)
    (hF : ∀ st r, bigStep st r = List.foldlM f st (g r)) :
    ∀ (l : List ρ) (st : σ),
      List.foldlM bigStep st l = List.foldlM f st (l.flatMap g) := by
  intro l
  induction l with
  | nil => intro st; simp
  | cons hd tl ih =>
    intro st
    rw [List.foldlM_cons, hF st hd, List.flatMap_cons, List.foldlM_append]
    cases hres : List.foldlM f st (g hd) with
    | error e => rw [error_bind, error_bind]
    | ok s => rw [ok_bind, ok_bind, ih]

/-- Every candidate kept by the filter pass of `pick_color` has the requested
color and comes from the options list. -/
theorem collectColor_mem :
    ∀ {options : List (Nat × Nat × Nat)} {color : CfaColor}
      {colors : List (CfaColor × Nat × Nat)},
      collectColor options color = .ok colors →
      ∀ t ∈ colors, t.1 = color ∧
        ∃ ord, (ord, t.2.1, t.2.2) ∈ options ∧ CfaColor.fromUsize ord = .ok color := by
  intro options
  induction options with
  | nil =>
    intro color colors h t ht
    rw [collectColor] at h
    simp only [Except.ok.injEq] at h
    rw [← h] at ht
    simp at ht
  | cons hd rest ih =>
    intro color colors h t ht
    obtain ⟨o, px, py⟩ := hd
    rw [collectColor] at h
    obtain ⟨c, hc, h⟩ := bindM_ok h
    obtain ⟨tail, htail, h⟩ := bindM_ok h
    by_cases hcol : c = color
    · rw [if_pos hcol] at h
      simp only [Except.ok.injEq] at h
      rw [← h] at ht
      rcases List.mem_cons.mp ht with he | he
      · subst he
        exact ⟨hcol, o, by simp, by rw [hc, hcol]⟩
      · obtain ⟨h1, ord, h2, h3⟩ := ih htail t he
        exact ⟨h1, ord, by simp [h2], h3⟩
    · rw [if_neg hcol] at h
      simp only [Except.ok.injEq] at h
      rw [← h] at ht
      obtain ⟨h1, ord, h2, h3⟩ := ih htail t ht
      exact ⟨h1, ord, by simp [h2], h3⟩

/-- A successful `pick_color` returns the coordinates of an option whose
filter color converts to the requested color. -/
theorem pick_color_ok {roll : RollingRandom} {options : List (Nat × Nat × Nat)}
    {color : CfaColor} {p : (Nat × Nat) × RollingRandom}
    (h : pick_color roll options color = .ok p) :
    ∃ ord, (ord, p.1.1, p.1.2) ∈ options ∧ CfaColor.fromUsize ord = .ok color := by
  rw [pick_color] at h
  obtain ⟨colors, hcolors, h⟩ := bindM_ok h
  by_cases hz : colors.length % 256 = 0
  · rw [if_pos hz] at h
    exact absurd h (by simp)
  · rw [if_neg hz] at h
    obtain ⟨t, ht, h⟩ := bindM_ok h
    have htmem : t ∈ colors := by
      rw [idxGet] at ht
      cases hg : colors.get? (roll.random_u8.1 % (colors.length % 256)) with
      | some v =>
        rw [hg] at ht
        simp only [Except.ok.injEq] at ht
        rw [ht] at hg
        exact List.get?_mem hg
      | none => rw [hg] at ht; exact absurd ht (by simp)
    obtain ⟨_, ord, hmem, hconv⟩ := collectColor_mem hcolors t htmem
    simp only [Except.ok.injEq] at h
    rw [← h]
    exact ⟨ord, hmem, hconv⟩

/-- With no matching candidate, `pick_color` panics with a remainder-by-zero
(the `% colors.len()` has no guard against an empty candidate list). -/
theorem pick_color_empty {options : List (Nat × Nat × Nat)} {color : CfaColor}
    (h : collectColor options color = .ok []) (roll : RollingRandom) :
    pick_color roll options color = .error .remainderZero := by
  rw [pick_color, h, ok_bind]
  rfl

theorem setPx_ok {T : Type} {rgb : List T} {w x y : Nat} {clr : CfaColor} {v : T}
    {rgb' : List T} (h : setPx rgb w x y clr v = .ok rgb') :
    ∃ k, clr.rgb_index = .ok k ∧ k < 3 ∧ (w * y + x) * 3 + k < rgb.length ∧
      rgb' = rgb.set ((w * y + x) * 3 + k) v := by
  rw [setPx] at h
  obtain ⟨k, hk, hset⟩ := bindM_ok h
  rw [idxSet] at hset
  by_cases hlt : (w * y + x) * 3 + k < rgb.length
  · rw [if_pos hlt] at hset
    simp only [Except.ok.injEq] at hset
    have hk3 : k < 3 := by
      cases clr
      case red => injection hk with hh; omega
      case green => injection hk with hh; omega
      case blue => injection hk with hh; omega
      case emerald => exact Except.noConfusion hk
    exact ⟨k, hk, hk3, hlt, hset.symm⟩
  · rw [if_neg hlt] at hset
    exact absurd hset (by simp)

theorem idxGet_ok_inv {α : Type} {l : List α} {i : Nat} {v : α}
    (h : idxGet l i = .ok v) : l.get? i = some v := idxGet_ok.mp h

theorem get?_set_ne' {α : Type} {l : List α} {i j : Nat} (a : α) (h : i ≠ j) :
    (l.set i a).get? j = l.get? j := List.get?_set_ne a l h

theorem get?_set_self' {α : Type} {l : List α} {i : Nat} (a : α) (h : i < l.length) :
    (l.set i a).get? i = some a := by
  rw [List.get?_eq_getElem?, List.getElem?_set_self h]

/-- Structural description of a successful `debayerPixel` step: the pixel's
filter color converts to a non-Emerald color, only the pixel's own three
interleaved positions change, the native channel receives the pixel's own raw
sample, and each non-native channel receives the raw sample of one of the
pixel's options whose filter color converts to that channel's color. -/
theorem debayerPixel_ok_struct {T : Type} {data : List T} {w : Nat} {cfa : Cfa}
    {st st' : List T × RollingRandom} {x y : Nat}
    (h : debayerPixel data w cfa st x y = .ok st') :
    ∃ cc kc, CfaColor.fromUsize (cfa.color_at x y) = .ok cc ∧ cc.rgb_index = .ok kc ∧
      st'.1.length = st.1.length ∧
      (∀ j : Nat, (∀ k : Nat, k < 3 → j ≠ (w * y + x) * 3 + k) →
        st'.1.get? j = st.1.get? j) ∧
      st'.1.get? ((w * y + x) * 3 + kc) = data.get? (w * y + x) ∧
      (∀ (ch : CfaColor) (k2 : Nat), ch.rgb_index = .ok k2 → ch ≠ cc →
        ∃ px py : Nat,
          (∃ ord, (ord, px, py) ∈ pixelOptions cfa x y ∧
            CfaColor.fromUsize ord = .ok ch) ∧
          st'.1.get? ((w * y + x) * 3 + k2) = data.get? (w * py + px)) := by
  simp only [debayerPixel] at h
  obtain ⟨cc, hcc, h⟩ := bindM_ok h
  cases cc with
  | emerald => exact absurd h (by simp)
  | red =>
    obtain ⟨v1, hv1, h⟩ := bindM_ok h
    obtain ⟨rgb1, hs1, h⟩ := bindM_ok h
    obtain ⟨p, hp1, h⟩ := bindM_ok h
    obtain ⟨v2, hv2, h⟩ := bindM_ok h
    obtain ⟨rgb2, hs2, h⟩ := bindM_ok h
    obtain ⟨q, hp2, h⟩ := bindM_ok h
    obtain ⟨v3, hv3, h⟩ := bindM_ok h
    obtain ⟨rgb3, hs3, h⟩ := bindM_ok h
    simp only [Except.ok.injEq] at h
    obtain ⟨k1, hk1, _, hi1, he1⟩ := setPx_ok hs1
    obtain ⟨k2x, hk2x, _, hi2, he2⟩ := setPx_ok hs2
    obtain ⟨k3x, hk3x, _, hi3, he3⟩ := setPx_ok hs3
    have hk10 : k1 = 0 := by injection hk1 with hh; omega
    have hk21 : k2x = 1 := by injection hk2x with hh; omega
    have hk32 : k3x = 2 := by injection hk3x with hh; omega
    subst hk10 hk21 hk32
    subst he1 he2 he3
    rw [← h]
    refine ⟨.red, 0, hcc, rfl, by simp [List.length_set], ?_, ?_, ?_⟩
    · intro j hj
      rw [get?_set_ne' _ (Ne.symm (hj 2 (by omega))),
        get?_set_ne' _ (Ne.symm (hj 1 (by omega))),
        get?_set_ne' _ (Ne.symm (hj 0 (by omega)))]
    · rw [get?_set_ne' _ (by omega), get?_set_ne' _ (by omega),
        get?_set_self' _ hi1, idxGet_ok_inv hv1]
    · intro ch kk hkk hne
      cases ch with
      | red => exact absurd rfl hne
      | emerald => exact Except.noConfusion hkk
      | green =>
        have hkk1 : kk = 1 := by injection hkk with hh; omega
        subst hkk1
        refine ⟨p.1.1, p.1.2, pick_color_ok hp1, ?_⟩
        rw [get?_set_ne' _ (by omega), get?_set_self' _ hi2, idxGet_ok_inv hv2]
      | blue =>
        have hkk2 : kk = 2 := by injection hkk with hh; omega
        subst hkk2
        refine ⟨q.1.1, q.1.2, pick_color_ok hp2, ?_⟩
        rw [get?_set_self' _ hi3, idxGet_ok_inv hv3]
  | blue =>
    obtain ⟨p, hp1, h⟩ := bindM_ok h
    obtain ⟨v1, hv1, h⟩ := bindM_ok h
    obtain ⟨rgb1, hs1, h⟩ := bindM_ok h
    obtain ⟨v2, hv2, h⟩ := bindM_ok h
    obtain ⟨rgb2, hs2, h⟩ := bindM_ok h
    obtain ⟨q, hp2, h⟩ := bindM_ok h
    obtain ⟨v3, hv3, h⟩ := bindM_ok h
    obtain ⟨rgb3, hs3, h⟩ := bindM_ok h
    simp only [Except.ok.injEq] at h
    obtain ⟨k1, hk1, _, hi1, he1⟩ := setPx_ok hs1
    obtain ⟨k2x, hk2x, _, hi2, he2⟩ := setPx_ok hs2
    obtain ⟨k3x, hk3x, _, hi3, he3⟩ := setPx_ok hs3
    have hk10 : k1 = 0 := by injection hk1 with hh; omega
    have hk22 : k2x = 2 := by injection hk2x with hh; omega
    have hk31 : k3x = 1 := by injection hk3x with hh; omega
    subst hk10 hk22 hk31
    subst he1 he2 he3
    rw [← h]
    refine ⟨.blue, 2, hcc, rfl, by simp [List.length_set], ?_, ?_, ?_⟩
    · intro j hj
      rw [get?_set_ne' _ (Ne.symm (hj 1 (by omega))),
        get?_set_ne' _ (Ne.symm (hj 2 (by omega))),
        get?_set_ne' _ (Ne.symm (hj 0 (by omega)))]
    · rw [get?_set_ne' _ (by omega), get?_set_self' _ hi2, idxGet_ok_inv hv2]
    · intro ch kk hkk hne
      cases ch with
      | blue => exact absurd rfl hne
      | emerald => exact Except.noConfusion hkk
      | red =>
        have hkk0 : kk = 0 := by injection hkk with hh; omega
        subst hkk0
        refine ⟨p.1.1, p.1.2, pick_color_ok hp1, ?_⟩
        rw [get?_set_ne' _ (by omega), get?_set_ne' _ (by omega),
          get?_set_self' _ hi1, idxGet_ok_inv hv1]
      | green =>
        have hkk1 : kk = 1 := by injection hkk with hh; omega
        subst hkk1
        refine ⟨q.1.1, q.1.2, pick_color_ok hp2, ?_⟩
        rw [get?_set_self' _ hi3, idxGet_ok_inv hv3]
  | green =>
    obtain ⟨p, hp1, h⟩ := bindM_ok h
    obtain ⟨v1, hv1, h⟩ := bindM_ok h
    obtain ⟨rgb1, hs1, h⟩ := bindM_ok h
    obtain ⟨q, hp2, h⟩ := bindM_ok h
    obtain ⟨v2, hv2, h⟩ := bindM_ok h
    obtain ⟨rgb2, hs2, h⟩ := bindM_ok h
    obtain ⟨v3, hv3, h⟩ := bindM_ok h
    obtain ⟨rgb3, hs3, h⟩ := bindM_ok h
    simp only [Except.ok.injEq] at h
    obtain ⟨k1, hk1, _, hi1, he1⟩ := setPx_ok hs1
    obtain ⟨k2x, hk2x, _, hi2, he2⟩ := setPx_ok hs2
    obtain ⟨k3x, hk3x, _, hi3, he3⟩ := setPx_ok hs3
    have hk10 : k1 = 0 := by injection hk1 with hh; omega
    have hk22 : k2x = 2 := by injection hk2x with hh; omega
    have hk31 : k3x = 1 := by injection hk3x with hh; omega
    subst hk10 hk22 hk31
    subst he1 he2 he3
    rw [← h]
    refine ⟨.green, 1, hcc, rfl, by simp [List.length_set], ?_, ?_, ?_⟩
    · intro j hj
      rw [get?_set_ne' _ (Ne.symm (hj 1 (by omega))),
        get?_set_ne' _ (Ne.symm (hj 2 (by omega))),
        get?_set_ne' _ (Ne.symm (hj 0 (by omega)))]
    · rw [get?_set_self' _ hi3, idxGet_ok_inv hv3]
    · intro ch kk hkk hne
      cases ch with
      | green => exact absurd rfl hne
      | emerald => exact Except.noConfusion hkk
      | red =>
        have hkk0 : kk = 0 := by injection hkk with hh; omega
        subst hkk0
        refine ⟨p.1.1, p.1.2, pick_color_ok hp1, ?_⟩
        rw [get?_set_ne' _ (by omega), get?_set_ne' _ (by omega),
          get?_set_self' _ hi1, idxGet_ok_inv hv1]
      | blue =>
        have hkk2 : kk = 2 := by injection hkk with hh; omega
        subst hkk2
        refine ⟨q.1.1, q.1.2, pick_color_ok hp2, ?_⟩
        rw [get?_set_ne' _ (by omega), get?_set_self' _ hi2, idxGet_ok_inv hv2]

theorem debayerCol_eq {T : Type} (data : List T) (w h : Nat) (cfa : Cfa)
    (hh : 1 ≤ h) (st : List T × RollingRandom) (x : Nat) :
    debayerCol data w h cfa st x =
      List.foldlM (fun s (p : Nat × Nat) => debayerPixel data w cfa s p.1 p.2) st
        ((List.range' 1 (h - 1 - 1)).map (fun y => (x, y))) := by
  rw [debayerCol, checkedSub_ok hh, ok_bind, List.foldlM_map]

/-- A successful `debayer` run is the flat fold of `debayerPixel` over the
interior pixels, started from the sentinel-filled buffer. -/
theorem debayer_ok_fold {T F : Type} {rr0 : RollingRandom} {img : Image T F}
    {out : Image T F} (hok : img.debayer rr0 = .ok out) (hh : 1 ≤ img.height) :
    ∃ (sent : T) (res : List T × RollingRandom),
      img.data.get? 0 = some sent ∧
      List.foldlM
        (fun s (p : Nat × Nat) => debayerPixel img.data img.width img.metadata.cfa s p.1 p.2)
        (List.replicate (img.width * img.height * 3) sent, rr0)
        (pixelSeq img.width img.height) = .ok res ∧
      out = { width := img.width, height := img.height, metadata := img.metadata,
              data := res.1 } := by
  rw [Image.debayer] at hok
  obtain ⟨sent, hsent, hok⟩ := bindM_ok hok
  obtain ⟨wEnd, hwEnd, hok⟩ := bindM_ok hok
  obtain ⟨res, hres, hfin⟩ := bindM_ok hok
  obtain ⟨hw1, hwE⟩ := checkedSub_ok_inv hwEnd
  subst hwE
  refine ⟨sent, res, idxGet_ok.mp hsent, ?_, ?_⟩
  · rw [pixelSeq]
    rw [← foldlM_flatMap
      (fun s (p : Nat × Nat) => debayerPixel img.data img.width img.metadata.cfa s p.1 p.2)
      (fun xx => (List.range' 1 (img.height - 1 - 1)).map (fun yy => (xx, yy)))
      (debayerCol img.data img.width img.height img.metadata.cfa)
      (fun st xx => debayerCol_eq img.data img.width img.height img.metadata.cfa hh st xx)]
    exact hres
  · simp only [Except.ok.injEq] at hfin
    exact hfin.symm

theorem mem_pixelSeq {w h x y : Nat} :
    (x, y) ∈ pixelSeq w h ↔ 1 ≤ x ∧ x < w - 1 ∧ 1 ≤ y ∧ y < h - 1 := by
  simp only [pixelSeq, List.mem_flatMap, List.mem_map, List.mem_range'_1, Prod.mk.injEq]
  constructor
  · rintro ⟨a, ⟨ha1, ha2⟩, b, ⟨hb1, hb2⟩, hax, hby⟩
    subst hax
    subst hby
    omega
  · rintro ⟨hx1, hx2, hy1, hy2⟩
    exact ⟨x, ⟨hx1, by omega⟩, y, ⟨hy1, by omega⟩, rfl, rfl⟩

/-- Two distinct in-bounds pixels own disjoint triples of interleaved output
positions. -/
theorem pxIdx_ne {w x y k x2 y2 k2 : Nat} (hx : x < w) (hx2 : x2 < w)
    (hk : k < 3) (hk2 : k2 < 3) (hne : ¬(x = x2 ∧ y = y2)) :
    (w * y + x) * 3 + k ≠ (w * y2 + x2) * 3 + k2 := by
  intro heq
  have hbase : w * y + x = w * y2 + x2 := by omega
  have hxx : x = x2 := by
    have h1 : (w * y + x) % w = x := by
      rw [Nat.mul_add_mod, Nat.mod_eq_of_lt hx]
    have h2 : (w * y2 + x2) % w = x2 := by
      rw [Nat.mul_add_mod, Nat.mod_eq_of_lt hx2]
    rw [← h1, ← h2, hbase]
  have hyy : y = y2 := by
    subst hxx
    have hww : 0 < w := by omega
    have : w * y = w * y2 := by omega
    exact Nat.eq_of_mul_eq_mul_left hww this
  exact hne ⟨hxx, hyy⟩

theorem rgb_index_lt {cc : CfaColor} {k : Nat} (h : cc.rgb_index = .ok k) : k < 3 := by
  cases cc
  case red => injection h with hh; omega
  case green => injection h with hh; omega
  case blue => injection h with hh; omega
  case emerald => exact Except.noConfusion h

theorem pixelSeq_interior {w h : Nat} {q : Nat × Nat} (hq : q ∈ pixelSeq w h) :
    1 ≤ q.1 ∧ q.1 < w - 1 ∧ 1 ≤ q.2 ∧ q.2 < h - 1 := by
  have hq2 : (q.1, q.2) ∈ pixelSeq w h := by rwa [Prod.mk.eta]
  exact mem_pixelSeq.mp hq2

/-- C3: for every non-border pixel, the demosaic output's channel matching
the pixel's native filter color equals the pixel's raw sensor sample,
exactly. -/
theorem debayer_native_exact {T F : Type} (rr0 : RollingRandom) (img : Image T F)
    (x y : Nat) (hx1 : 1 ≤ x) (hx2 : x + 1 < img.width) (hy1 : 1 ≤ y)
    (hy2 : y + 1 < img.height)
    (out : Image T F) (hok : img.debayer rr0 = .ok out)
    (cc : CfaColor) (hcc : CfaColor.fromUsize (img.metadata.cfa.color_at x y) = .ok cc)
    (k : Nat) (hk : cc.rgb_index = .ok k) :
    out.data.get? ((img.width * y + x) * 3 + k) = img.data.get? (img.width * y + x) := by
  obtain ⟨sent, res, hsent, hfold, hout⟩ := debayer_ok_fold hok (by omega)
  have hk3 : k < 3 := rgb_index_lt hk
  have hmem : (x, y) ∈ pixelSeq img.width img.height :=
    mem_pixelSeq.mpr ⟨hx1, by omega, hy1, by omega⟩
  have hmain := foldlM_establish
    (fun s (p : Nat × Nat) => debayerPixel img.data img.width img.metadata.cfa s p.1 p.2)
    (fun s => s.1.get? ((img.width * y + x) * 3 + k) = img.data.get? (img.width * y + x))
    (x, y) (pixelSeq img.width img.height)
    (List.replicate (img.width * img.height * 3) sent, rr0) res
    (by
      intro s1 s2 hstep
      obtain ⟨cc2, kc2, hcc2, hkc2, _, _, hnat, _⟩ := debayerPixel_ok_struct hstep
      rw [hcc] at hcc2
      injection hcc2 with hcc2
      subst hcc2
      rw [hk] at hkc2
      injection hkc2 with hkc2
      subst hkc2
      exact hnat)
    (by
      intro q hq hqne s1 s2 hstep hphi
      obtain ⟨_, _, _, _, _, hframe, _, _⟩ := debayerPixel_ok_struct hstep
      rw [hframe _ ?_]
      · exact hphi
      · intro kk hkk
        obtain ⟨hq1, hq2, hq3, hq4⟩ := pixelSeq_interior hq
        refine pxIdx_ne (by omega) (by omega) hk3 hkk ?_
        intro ⟨hxx, hyy⟩
        exact hqne (by rw [← Prod.mk.eta (p := q), ← hxx, ← hyy]))
    hmem hfold
  rw [hout]
  exact hmain

theorem debayer_native_exact_witness :
    (1 ≤ 1 ∧ 1 + 1 < ex3.width ∧ 1 + 1 < ex3.height) ∧
    ex3.debayer rrZ = Except.ok ex3Out ∧
    CfaColor.fromUsize (ex3.metadata.cfa.color_at 1 1) = .ok CfaColor.blue ∧
    CfaColor.blue.rgb_index = .ok 2 ∧
    ex3Out.data.get? ((ex3.width * 1 + 1) * 3 + 2) = ex3.data.get? (ex3.width * 1 + 1) :=
  ⟨⟨Nat.le_refl 1, by decide, by decide⟩, by rfl, by rfl, by rfl,
    debayer_native_exact rrZ ex3 1 1 (by decide) (by decide) (by decide) (by decide)
      ex3Out (by rfl) CfaColor.blue (by rfl) 2 (by rfl)⟩

/-- C7: every channel of every pixel in the outermost one-pixel ring of the
demosaic output holds the sentinel value — the buffer's first sensor sample,
replicated when the output buffer was allocated — untouched by the interior
reconstruction loop. -/
theorem debayer_border_sentinel {T F : Type} (rr0 : RollingRandom) (img : Image T F)
    (out : Image T F) (hok : img.debayer rr0 = .ok out)
    (x y : Nat) (hx : x < img.width) (hy : y < img.height)
    (hb : x = 0 ∨ y = 0 ∨ x + 1 = img.width ∨ y + 1 = img.height)
    (c : Nat) (hc : c < 3) :
    out.data.get? ((img.width * y + x) * 3 + c) = img.data.get? 0 := by
  obtain ⟨sent, res, hsent, hfold, hout⟩ := debayer_ok_fold hok (by omega)
  have hmain := foldlM_preserve
    (fun s (p : Nat × Nat) => debayerPixel img.data img.width img.metadata.cfa s p.1 p.2)
    (fun s => s.1.get? ((img.width * y + x) * 3 + c) = some sent)
    (pixelSeq img.width img.height)
    (List.replicate (img.width * img.height * 3) sent, rr0) res
    (by
      intro q hq s1 s2 hstep hphi
      obtain ⟨_, _, _, _, _, hframe, _, _⟩ := debayerPixel_ok_struct hstep
      rw [hframe _ ?_]
      · exact hphi
      · intro kk hkk
        obtain ⟨hq1, hq2, hq3, hq4⟩ := pixelSeq_interior hq
        refine pxIdx_ne hx (by omega) hc hkk ?_
        intro ⟨hxx, hyy⟩
        omega)
    hfold
    (by
      show (List.replicate (img.width * img.height * 3) sent).get? _ = some sent
      rw [List.get?_eq_getElem?, List.getElem?_replicate, if_pos ?_]
      have h1 : img.width * y + x < img.width * img.height := by
        calc img.width * y + x < img.width * y + img.width := by omega
          _ = img.width * (y + 1) := by ring
          _ ≤ img.width * img.height := Nat.mul_le_mul_left _ (by omega)
      omega)
  rw [hout]
  show res.1.get? _ = _
  rw [hmain, hsent]

theorem debayer_border_sentinel_witness :
    ex3.debayer rrZ = Except.ok ex3Out ∧
    (0 < ex3.width ∧ 2 < ex3.height ∧ (0 = 0 ∨ (2:Nat) = 0 ∨ 0 + 1 = ex3.width ∨ 2 + 1 = ex3.height)) ∧
    ex3Out.data.get? ((ex3.width * 2 + 0) * 3 + 1) = ex3.data.get? 0 :=
  ⟨by rfl, ⟨by decide, by decide, by decide⟩,
    debayer_border_sentinel rrZ ex3 ex3Out (by rfl) 0 2 (by decide) (by decide)
      (by decide) 1 (by decide)⟩

theorem usizeOfInt_coe {i : Int} (h0 : 0 ≤ i) (h1 : i < 2 ^ 64) :
    (usizeOfInt i : Int) = i := by
  rw [usizeOfInt, Int.emod_eq_of_lt h0 h1, Int.toNat_of_nonneg h0]

theorem neighborOffsets_bound {o : Int × Int} (h : o ∈ neighborOffsets) :
    (-1 ≤ o.1 ∧ o.1 ≤ 1 ∧ -1 ≤ o.2 ∧ o.2 ≤ 1) ∧ ¬(o.1 = 0 ∧ o.2 = 0) := by
  simp only [neighborOffsets, List.mem_cons, List.not_mem_nil, or_false] at h
  rcases h with h | h | h | h | h | h | h | h <;> rw [h] <;> exact ⟨by decide, by decide⟩

theorem pixelOptions_mem_inv {cfa : Cfa} {x y ord px py : Nat}
    (h : (ord, px, py) ∈ pixelOptions cfa x y) :
    ∃ o ∈ neighborOffsets, px = usizeOfInt ((x : Int) + o.1) ∧
      py = usizeOfInt ((y : Int) + o.2) ∧ ord = cfa.color_at px py := by
  simp only [pixelOptions, List.mem_map, Prod.mk.injEq] at h
  obtain ⟨o, ho, h1, h2, h3⟩ := h
  exact ⟨o, ho, h2.symm, h3.symm, by rw [← h1, h2, h3]⟩

/-- C4: for every non-border pixel and every non-native output channel, the
demosaic output value is the raw sensor sample of one of the eight immediate
3×3 neighbors whose filter color matches that channel — never an average,
never a value from anywhere else. -/
theorem debayer_neighbor_constraint {T F : Type} (rr0 : RollingRandom) (img : Image T F)
    (x y : Nat) (hx1 : 1 ≤ x) (hx2 : x + 1 < img.width) (hy1 : 1 ≤ y)
    (hy2 : y + 1 < img.height)
    (hw64 : img.width < 2 ^ 64) (hh64 : img.height < 2 ^ 64)
    (out : Image T F) (hok : img.debayer rr0 = .ok out)
    (cc : CfaColor) (hcc : CfaColor.fromUsize (img.metadata.cfa.color_at x y) = .ok cc)
    (ch : CfaColor) (hne : ch ≠ cc) (k : Nat) (hk : ch.rgb_index = .ok k) :
    ∃ (dx dy : Int), (dx, dy) ∈ neighborOffsets ∧ ¬(dx = 0 ∧ dy = 0) ∧
      ∃ px py : Nat, (px : Int) = (x : Int) + dx ∧ (py : Int) = (y : Int) + dy ∧
        CfaColor.fromUsize (img.metadata.cfa.color_at px py) = .ok ch ∧
        out.data.get? ((img.width * y + x) * 3 + k) =
          img.data.get? (img.width * py + px) := by
  obtain ⟨sent, res, hsent, hfold, hout⟩ := debayer_ok_fold hok (by omega)
  have hk3 : k < 3 := rgb_index_lt hk
  have hmem : (x, y) ∈ pixelSeq img.width img.height :=
    mem_pixelSeq.mpr ⟨hx1, by omega, hy1, by omega⟩
  have hmain := foldlM_establish
    (fun s (p : Nat × Nat) => debayerPixel img.data img.width img.metadata.cfa s p.1 p.2)
    (fun s => ∃ px py : Nat,
      (∃ ord, (ord, px, py) ∈ pixelOptions img.metadata.cfa x y ∧
        CfaColor.fromUsize ord = .ok ch) ∧
      s.1.get? ((img.width * y + x) * 3 + k) = img.data.get? (img.width * py + px))
    (x, y) (pixelSeq img.width img.height)
    (List.replicate (img.width * img.height * 3) sent, rr0) res
    (by
      intro s1 s2 hstep
      obtain ⟨cc2, kc2, hcc2, hkc2, _, _, _, hnonnat⟩ := debayerPixel_ok_struct hstep
      rw [hcc] at hcc2
      injection hcc2 with hcc2
      subst hcc2
      exact hnonnat ch k hk hne)
    (by
      intro q hq hqne s1 s2 hstep hphi
      obtain ⟨_, _, _, _, _, hframe, _, _⟩ := debayerPixel_ok_struct hstep
      obtain ⟨px, py, hprov, hval⟩ := hphi
      refine ⟨px, py, hprov, ?_⟩
      rw [hframe _ ?_]
      · exact hval
      · intro kk hkk
        obtain ⟨hq1, hq2, hq3, hq4⟩ := pixelSeq_interior hq
        refine pxIdx_ne (by omega) (by omega) hk3 hkk ?_
        intro ⟨hxx, hyy⟩
        exact hqne (by rw [← Prod.mk.eta (p := q), ← hxx, ← hyy]))
    hmem hfold
  obtain ⟨px, py, ⟨ord, hordmem, hconv⟩, hval⟩ := hmain
  obtain ⟨o, ho, hpx, hpy, hord⟩ := pixelOptions_mem_inv hordmem
  obtain ⟨⟨hb1, hb2, hb3, hb4⟩, hbne⟩ := neighborOffsets_bound ho
  have hpxi : (px : Int) = (x : Int) + o.1 := by
    rw [hpx]
    exact usizeOfInt_coe (by omega) (by omega)
  have hpyi : (py : Int) = (y : Int) + o.2 := by
    rw [hpy]
    exact usizeOfInt_coe (by omega) (by omega)
  refine ⟨o.1, o.2, by rwa [Prod.mk.eta], hbne, px, py, hpxi, hpyi, ?_, ?_⟩
  · rw [← hord]
    exact hconv
  · rw [hout]
    exact hval

theorem debayer_neighbor_constraint_witness :
    (1 ≤ 1 ∧ 1 + 1 < ex3.width ∧ 1 + 1 < ex3.height ∧
      ex3.width < 2 ^ 64 ∧ ex3.height < 2 ^ 64) ∧
    ex3.debayer rrZ = Except.ok ex3Out ∧
    CfaColor.red ≠ CfaColor.blue ∧
    (∃ (dx dy : Int), (dx, dy) ∈ neighborOffsets ∧ ¬(dx = 0 ∧ dy = 0) ∧
      ∃ px py : Nat, (px : Int) = ((1 : Nat) : Int) + dx ∧ (py : Int) = ((1 : Nat) : Int) + dy ∧
        CfaColor.fromUsize (ex3.metadata.cfa.color_at px py) = .ok .red ∧
        ex3Out.data.get? ((ex3.width * 1 + 1) * 3 + 0) =
          ex3.data.get? (ex3.width * py + px)) :=
  ⟨⟨Nat.le_refl 1, by decide, by decide, by decide, by decide⟩, by rfl, by decide,
    debayer_neighbor_constraint rrZ ex3 1 1 (by decide) (by decide) (by decide) (by decide)
      (by decide) (by decide) ex3Out (by rfl) CfaColor.blue (by rfl) CfaColor.red
      (by decide) 0 (by rfl)⟩

/-- A pixel whose filter color is Emerald makes the per-pixel step hit the
`unreachable!()` arm, whatever the current state. -/
theorem debayerPixel_emerald {T : Type} (data : List T) (w : Nat) (cfa : Cfa)
    {x y : Nat} (hem : cfa.color_at x y = 3) (st : List T × RollingRandom) :
    debayerPixel data w cfa st x y = .error .unreachableCode := by
  simp only [debayerPixel, hem, CfaColor.fromUsize, ok_bind]

/-- If the per-pixel step fails at some interior pixel for every state, the
whole demosaic run fails. -/
theorem debayer_error_of_pixel_error {T F : Type} (rr0 : RollingRandom)
    (img : Image T F) {x y : Nat} (hx1 : 1 ≤ x) (hx2 : x + 1 < img.width)
    (hy1 : 1 ≤ y) (hy2 : y + 1 < img.height)
    (hstep : ∀ st : List T × RollingRandom, ∃ e,
      debayerPixel img.data img.width img.metadata.cfa st x y = .error e) :
    ∃ e, img.debayer rr0 = .error e := by
  rw [Image.debayer]
  cases hs : idxGet img.data 0 with
  | error e => exact ⟨e, by rw [error_bind]⟩
  | ok sent =>
    rw [ok_bind, checkedSub_ok (by omega : 1 ≤ img.width), ok_bind]
    have hflat := foldlM_flatMap
      (fun s (p : Nat × Nat) => debayerPixel img.data img.width img.metadata.cfa s p.1 p.2)
      (fun xx => (List.range' 1 (img.height - 1 - 1)).map (fun yy => (xx, yy)))
      (debayerCol img.data img.width img.height img.metadata.cfa)
      (fun st xx => debayerCol_eq img.data img.width img.height img.metadata.cfa
        (by omega) st xx)
      (List.range' 1 (img.width - 1 - 1))
      (List.replicate (img.width * img.height * 3) sent, rr0)
    rw [hflat]
    have hmem : (x, y) ∈ pixelSeq img.width img.height :=
      mem_pixelSeq.mpr ⟨hx1, by omega, hy1, by omega⟩
    obtain ⟨e, he⟩ := foldlM_error
      (fun s (p : Nat × Nat) => debayerPixel img.data img.width img.metadata.cfa s p.1 p.2)
      (x, y) (pixelSeq img.width img.height)
      (List.replicate (img.width * img.height * 3) sent, rr0)
      (fun s1 => hstep s1) hmem
    rw [show (List.range' 1 (img.width - 1 - 1)).flatMap
        (fun xx => (List.range' 1 (img.height - 1 - 1)).map (fun yy => (xx, yy))) =
        pixelSeq img.width img.height from rfl]
    rw [he, error_bind]
    exact ⟨e, rfl⟩

/-- C2 amended: when the CFA resolver reports Emerald for an interior pixel,
`debayer` panics (the `unreachable!()` arm, or an earlier panic from a
preceding pixel) and produces no RGB image; it does not return an
`UnsupportedFilterColor` error. -/
theorem debayer_emerald_panics {T F : Type} (rr0 : RollingRandom) (img : Image T F)
    (x y : Nat) (hx1 : 1 ≤ x) (hx2 : x + 1 < img.width) (hy1 : 1 ≤ y)
    (hy2 : y + 1 < img.height)
    (hem : img.metadata.cfa.color_at x y = 3) :
    ∃ e, img.debayer rr0 = .error e :=
  debayer_error_of_pixel_error rr0 img hx1 hx2 hy1 hy2
    (fun st => ⟨.unreachableCode,
      debayerPixel_emerald img.data img.width img.metadata.cfa hem st⟩)

theorem debayer_emerald_panics_witness :
    (1 ≤ 1 ∧ 1 + 1 < exEm.width ∧ 1 + 1 < exEm.height ∧
      exEm.metadata.cfa.color_at 1 1 = 3) ∧
    (∃ e, exEm.debayer rrZ = .error e) :=
  ⟨⟨Nat.le_refl 1, by decide, by decide, by decide⟩,
    debayer_emerald_panics rrZ exEm 1 1 (by decide) (by decide) (by decide) (by decide)
      (by decide)⟩

/-- C2 counterexample: on a buffer whose CFA reports Emerald, `debayer`
panics at the `unreachable!()` arm — it does not fail with the
`UnsupportedFilterColor` error the specification prescribes. -/
theorem debayer_emerald_counterexample :
    exEm.debayer rrZ = .error .unreachableCode ∧
    exEm.debayer rrZ ≠ .error .unsupportedFilterColor := by
  refine ⟨by rfl, ?_⟩
  rw [show exEm.debayer rrZ = Except.error Failure.unreachableCode from rfl]
  exact fun h => Failure.noConfusion (Except.error.inj h)

/-- If no option of the requested non-native color exists for an interior
pixel, the per-pixel step fails for every state: either some earlier access
panics, or the unguarded `% 0` in `pick_color` is reached. -/
theorem debayerPixel_missing_neighbor {T : Type} (data : List T) (w : Nat) (cfa : Cfa)
    {x y : Nat} {cc ch : CfaColor}
    (hcc : CfaColor.fromUsize (cfa.color_at x y) = .ok cc)
    (hch : ch ≠ cc) (hchem : ch ≠ .emerald)
    (hempty : collectColor (pixelOptions cfa x y) ch = .ok [])
    (st : List T × RollingRandom) :
    ∃ e, debayerPixel data w cfa st x y = .error e := by
  cases cc with
  | emerald =>
    exact ⟨.unreachableCode, by simp only [debayerPixel, hcc, ok_bind]⟩
  | red =>
    simp only [debayerPixel, hcc, ok_bind]
    cases hv1 : idxGet data (w * y + x) with
    | error e => exact ⟨e, by rw [error_bind]⟩
    | ok v1 =>
      rw [ok_bind]
      cases hs1 : setPx st.1 w x y .red v1 with
      | error e => exact ⟨e, by rw [error_bind]⟩
      | ok rgb1 =>
        rw [ok_bind]
        cases ch with
        | emerald => exact absurd rfl hchem
        | red => exact absurd rfl hch
        | green =>
          rw [pick_color_empty hempty st.2, error_bind]
          exact ⟨.remainderZero, rfl⟩
        | blue =>
          cases hp1 : pick_color st.2 (pixelOptions cfa x y) .green with
          | error e => exact ⟨e, by rw [error_bind]⟩
          | ok p =>
            rw [ok_bind]
            cases hv2 : idxGet data (w * p.1.2 + p.1.1) with
            | error e => exact ⟨e, by rw [error_bind]⟩
            | ok v2 =>
              rw [ok_bind]
              cases hs2 : setPx rgb1 w x y .green v2 with
              | error e => exact ⟨e, by rw [error_bind]⟩
              | ok rgb2 =>
                rw [ok_bind, pick_color_empty hempty p.2, error_bind]
                exact ⟨.remainderZero, rfl⟩
  | blue =>
    simp only [debayerPixel, hcc, ok_bind]
    cases ch with
    | emerald => exact absurd rfl hchem
    | blue => exact absurd rfl hch
    | red =>
      rw [pick_color_empty hempty st.2, error_bind]
      exact ⟨.remainderZero, rfl⟩
    | green =>
      cases hp1 : pick_color st.2 (pixelOptions cfa x y) .red with
      | error e => exact ⟨e, by rw [error_bind]⟩
      | ok p =>
        rw [ok_bind]
        cases hv1 : idxGet data (w * p.1.2 + p.1.1) with
        | error e => exact ⟨e, by rw [error_bind]⟩
        | ok v1 =>
          rw [ok_bind]
          cases hs1 : setPx st.1 w x y .red v1 with
          | error e => exact ⟨e, by rw [error_bind]⟩
          | ok rgb1 =>
            rw [ok_bind]
            cases hv2 : idxGet data (w * y + x) with
            | error e => exact ⟨e, by rw [error_bind]⟩
            | ok v2 =>
              rw [ok_bind]
              cases hs2 : setPx rgb1 w x y .blue v2 with
              | error e => exact ⟨e, by rw [error_bind]⟩
              | ok rgb2 =>
                rw [ok_bind, pick_color_empty hempty p.2, error_bind]
                exact ⟨.remainderZero, rfl⟩
  | green =>
    simp only [debayerPixel, hcc, ok_bind]
    cases ch with
    | emerald => exact absurd rfl hchem
    | green => exact absurd rfl hch
    | red =>
      rw [pick_color_empty hempty st.2, error_bind]
      exact ⟨.remainderZero, rfl⟩
    | blue =>
      cases hp1 : pick_color st.2 (pixelOptions cfa x y) .red with
      | error e => exact ⟨e, by rw [error_bind]⟩
      | ok p =>
        rw [ok_bind]
        cases hv1 : idxGet data (w * p.1.2 + p.1.1) with
        | error e => exact ⟨e, by rw [error_bind]⟩
        | ok v1 =>
          rw [ok_bind]
          cases hs1 : setPx st.1 w x y .red v1 with
          | error e => exact ⟨e, by rw [error_bind]⟩
          | ok rgb1 =>
            rw [ok_bind, pick_color_empty hempty p.2, error_bind]
            exact ⟨.remainderZero, rfl⟩

/-- C9: `pick_color` computes the chosen index as `random_u8 % candidates`
with no guard against zero — with no matching candidate it panics with a
remainder-by-zero; consequently `debayer` panics (returns no error value and
no image) on any buffer with an interior pixel missing a neighbor of a
requested non-native color. -/
theorem pick_color_zero_guard (T F : Type) :
    (∀ (roll : RollingRandom) (options : List (Nat × Nat × Nat)) (color : CfaColor),
      collectColor options color = .ok [] →
      pick_color roll options color = .error .remainderZero) ∧
    (∀ (rr0 : RollingRandom) (img : Image T F) (x y : Nat) (cc ch : CfaColor),
      1 ≤ x → x + 1 < img.width → 1 ≤ y → y + 1 < img.height →
      CfaColor.fromUsize (img.metadata.cfa.color_at x y) = .ok cc →
      ch ≠ cc → ch ≠ .emerald →
      collectColor (pixelOptions img.metadata.cfa x y) ch = .ok [] →
      ∃ e, img.debayer rr0 = .error e) := by
  constructor
  · intro roll options color h
    exact pick_color_empty h roll
  · intro rr0 img x y cc ch hx1 hx2 hy1 hy2 hcc hne hchem hempty
    exact debayer_error_of_pixel_error rr0 img hx1 hx2 hy1 hy2
      (debayerPixel_missing_neighbor img.data img.width img.metadata.cfa hcc hne hchem hempty)

theorem pick_color_zero_guard_witness :
    collectColor [] CfaColor.green = .ok [] ∧
    pick_color rrZ [] CfaColor.green = .error .remainderZero ∧
    (1 ≤ 1 ∧ 1 + 1 < exAllRed.width ∧ 1 + 1 < exAllRed.height ∧
      CfaColor.fromUsize (exAllRed.metadata.cfa.color_at 1 1) = .ok .red ∧
      CfaColor.green ≠ CfaColor.red ∧
      collectColor (pixelOptions exAllRed.metadata.cfa 1 1) CfaColor.green = .ok []) ∧
    (∃ e, exAllRed.debayer rrZ = .error e) :=
  ⟨by rfl, (pick_color_zero_guard Nat Nat).1 rrZ [] CfaColor.green (by rfl),
    ⟨Nat.le_refl 1, by decide, by decide, by rfl, by decide, by rfl⟩,
    (pick_color_zero_guard Nat Nat).2 rrZ exAllRed 1 1 CfaColor.red CfaColor.green
      (by decide) (by decide) (by decide) (by decide) (by rfl) (by decide) (by decide)
      (by rfl)⟩
